import Mathlib

/-!
# Game of Life, OpenMP task version (`life_openmp.c`)

Shallow embedding of the update engine of `life_openmp.c`:

* the two buffers `currWorld` / `nextWorld` (`char **`) are lists of rows of
  integer cells, read and written through total, bounds-checked accessors
  (`rd`, `wr`) that answer `none` outside the allocation;
* C `int` variables are `Int` (no overflow is reachable: every quantity is
  bounded by the size of the allocation);
* the row-splitting loop, the update task, the generation step and the
  generation loop are functions on an explicit `State`;
* the tasks of one generation are executed one after another, in spawn order
  (they are independent: they read `currWorld` only and write disjoint rows of
  `nextWorld`); the reset of the population counter, which every thread of the team
  executes, is placed before the tasks in `updatePhase` and anywhere in `runTeam`;
* `real_rand` is a stream of rationals, `prob` a rational;
* the option loop of `main` is a function on the list of arguments, with the C library
  conversions as parameters.
-/

namespace Life

/-! ## Buffers -/

/-- A buffer (`char **`): a list of rows, each a list of cells. -/
abbrev World := List (List Int)

/-- Read `m[i][j]`; `none` when the access falls outside the allocation. -/
def rd (m : World) (i j : Int) : Option Int :=
  if 0 ≤ i ∧ 0 ≤ j then
    match m[i.toNat]? with
    | some r => r[j.toNat]?
    | none => none
  else none

/-- Store `m[i][j] = v`; `none` when the access falls outside the allocation. -/
def wr (m : World) (i j : Int) (v : Int) : Option World :=
  if 0 ≤ i ∧ 0 ≤ j then
    match m[i.toNat]? with
    | some r =>
        if j.toNat < r.length then some (m.set i.toNat (r.set j.toNat v)) else none
    | none => none
  else none

/-- The buffer right after allocation and the zeroing loop (lines 83-94):
`nx` rows of `ny` cells, all 0. -/
def zeroWorld (nx ny : Int) : World :=
  List.replicate nx.toNat (List.replicate ny.toNat 0)

/-! ## Program state -/

/-- The globals of `life_openmp.c` together with the loop variable `t`, the
number of calls made to `real_rand` and a ghost log `writes` of the cells of
`nextWorld` stored to by the update tasks (oldest first). `pop_update` is
`population[w_update]` (`w_update = 0`), `pop_plot` is `population[w_plot]`
(`w_plot = 1`); the two indices are never assigned by the program. -/
structure State where
  nx : Int
  ny : Int
  maxiter : Int
  currWorld : World
  nextWorld : World
  pop_update : Int
  pop_plot : Int
  t : Int
  rcalls : Nat
  writes : List (Int × Int)
deriving DecidableEq, Repr

/-! ## Row splitting (lines 146-155) -/

/-- One iteration of the row-splitting loop: the values of `start`, `end` and
`my_rows` computed for one worker index. -/
structure RowRange where
  start : Int
  end_ : Int
  my_rows : Int
deriving DecidableEq, Repr

/-- The body of `for (int w = 0; w < W; w++)`, run for `k` more iterations
from worker index `w` with the running variable `row`. Every iteration is
recorded, empty ranges included. -/
def splitLoop (base rem : Int) : Nat → Int → Int → List RowRange
  | 0, _, _ => []
  | k + 1, w, row =>
      let my_rows := base + (if w < rem then 1 else 0)
      let start := row
      let end_ := start + my_rows - 1
      { start := start, end_ := end_, my_rows := my_rows } ::
        splitLoop base rem k (w + 1) (end_ + 1)

/-- All ranges computed by the row-splitting loop for `interior_rows` rows and
`W` workers (`base = interior_rows / W`, `rem = interior_rows % W`, `row = 1`). -/
def rowRanges (interior_rows W : Int) : List RowRange :=
  splitLoop (Int.tdiv interior_rows W) (Int.tmod interior_rows W) W.toNat 0 1

/-- The ranges for which a task is spawned: `if (my_rows <= 0) continue;`. -/
def spawned (rs : List RowRange) : List RowRange :=
  rs.filter (fun r => ¬ r.my_rows ≤ 0)

/-! ## The update task (lines 159-171) -/

/-- The sum `nn` of the eight neighbours of `(ii, jj)` (lines 161-164). -/
def neighbourSum (cw : World) (ii jj : Int) : Option Int := do
  let a ← rd cw (ii + 1) jj
  let b ← rd cw (ii - 1) jj
  let c ← rd cw ii (jj + 1)
  let d ← rd cw ii (jj - 1)
  let e ← rd cw (ii + 1) (jj + 1)
  let f ← rd cw (ii - 1) (jj - 1)
  let g ← rd cw (ii - 1) (jj + 1)
  let h ← rd cw (ii + 1) (jj - 1)
  pure (a + b + c + d + e + f + g + h)

/-- The value of `currWorld[ii][jj] ? (nn == 2 || nn == 3) : (nn == 3)`. -/
def rule (c nn : Int) : Int :=
  if c ≠ 0 then (if nn = 2 ∨ nn = 3 then 1 else 0) else (if nn = 3 then 1 else 0)

/-- The body of the inner loop (lines 161-169) for the cell `(ii, jj)`. -/
def updateCell (ii jj : Int) (s : State) : Option State := do
  let nn ← neighbourSum s.currWorld ii jj
  let c ← rd s.currWorld ii jj
  let nw ← wr s.nextWorld ii jj (rule c nn)
  let s1 := { s with nextWorld := nw, writes := s.writes ++ [(ii, jj)] }
  let x ← rd nw ii jj
  pure (if x ≠ 0 then { s1 with pop_update := s1.pop_update + 1 } else s1)

/-- The loop `for (jj = ...; jj < ny - 1; jj++)` with `k` iterations left. -/
def colLoop (ii : Int) : Nat → Int → State → Option State
  | 0, _, s => some s
  | k + 1, jj, s => (updateCell ii jj s).bind (colLoop ii k (jj + 1))

/-- The loop `for (ii = ...; ii <= end; ii++)` with `k` iterations left; the
inner loop starts at `jj = 1` and runs `ny - 2` times. -/
def rowLoop : Nat → Int → State → Option State
  | 0, _, s => some s
  | k + 1, ii, s => (colLoop ii (s.ny - 2).toNat 1 s).bind (rowLoop k (ii + 1))

/-- The task spawned for one row range (`firstprivate(start, end)`). -/
def runTask (r : RowRange) (s : State) : Option State :=
  rowLoop (r.end_ - r.start + 1).toNat r.start s

/-- Run the given tasks one after another. -/
def runTasks : List RowRange → State → Option State
  | [], s => some s
  | r :: rs, s => (runTask r s).bind (runTasks rs)

/-! ## The generation step (lines 134-178) -/

/-- The update phase of a generation: reset `population[w_update]`, split the
`nx - 2` interior rows among `W` workers and run the spawned tasks
(up to `#pragma omp taskwait`). The reset of line 134 is executed by every thread of
the team; this function is the schedule in which all these resets come before the first
task. It is exact for one thread and, for every `W`, for the buffers and the store log,
which no reset touches; schedules with a later reset are given by `runTeam`. -/
def updatePhase (W : Int) (s : State) : Option State :=
  runTasks (spawned (rowRanges (s.nx - 2) W)) { s with pop_update := 0 }

/-- A step of the thread team during the update phase of one generation: a thread
executes `population[w_update] = 0` (line 134, which lies in the loop body of the parallel
region outside `single`, so every thread executes it, unordered with the tasks already
spawned), or a spawned task runs to completion. -/
inductive TeamStep where
  | reset
  | task (r : RowRange)
deriving DecidableEq, Repr

/-- Run the steps of a schedule one after another. -/
def runTeam : List TeamStep → State → Option State
  | [], s => some s
  | TeamStep.reset :: rest, s => runTeam rest { s with pop_update := 0 }
  | TeamStep.task r :: rest, s => (runTask r s).bind (runTeam rest)

/-- The schedules of the update phase for a team of `W` threads in which the tasks run one
after another: the first step is the reset by the thread that then enters `single` and
spawns the tasks; the schedule holds one reset per thread and every spawned task once. -/
def TeamSchedule (interior_rows W : Int) (steps : List TeamStep) : Prop :=
  steps.head? = some TeamStep.reset ∧
    steps.Perm (List.replicate W.toNat TeamStep.reset ++
      (spawned (rowRanges interior_rows W)).map TeamStep.task)

/-- The exchange `tmesh = nextWorld; nextWorld = currWorld; currWorld = tmesh`. -/
def swapWorlds (s : State) : State :=
  { s with currWorld := s.nextWorld, nextWorld := s.currWorld }

/-- One iteration of the body of the generation loop, with the update phase as in
`updatePhase`. -/
def generation (W : Int) (s : State) : Option State :=
  (updatePhase W s).map swapWorlds

/-- The state after `k` iterations of the loop body. -/
def generations (W : Int) : Nat → State → Option State
  | 0, s => some s
  | k + 1, s => (generations W k s).bind (generation W)

/-- The loop `for (t = 0; t < maxiter && population[w_plot]; t++)` entered
with `t` already initialised, with `fuel` bounding the number of iterations;
`none` also when the fuel runs out while the loop condition still holds. -/
def simLoop (W : Int) : Nat → State → Option State
  | 0, s => if s.t < s.maxiter ∧ s.pop_plot ≠ 0 then none else some s
  | fuel + 1, s =>
      if s.t < s.maxiter ∧ s.pop_plot ≠ 0 then
        (generation W s).bind (fun s1 => simLoop W fuel { s1 with t := s1.t + 1 })
      else some s

/-! ## Initial world (lines 79-117) -/

/-- The inner seeding loop of pattern 0 on row `i`, `k` cells left from `j`:
`currWorld[i][j] = (real_rand() < prob) ? 1 : 0; population[w_plot] += currWorld[i][j]`. -/
def seedCols (rnd : Nat → ℚ) (prob : ℚ) (i : Int) : Nat → Int → State → Option State
  | 0, _, s => some s
  | k + 1, j, s =>
      (wr s.currWorld i j (if rnd s.rcalls < prob then 1 else 0)).bind (fun cw =>
        (rd cw i j).bind (fun x =>
          seedCols rnd prob i k (j + 1)
            { s with currWorld := cw, pop_plot := s.pop_plot + x, rcalls := s.rcalls + 1 }))

/-- The outer seeding loop of pattern 0, `k` rows left from `i`. -/
def seedRows (rnd : Nat → ℚ) (prob : ℚ) : Nat → Int → State → Option State
  | 0, _, s => some s
  | k + 1, i, s =>
      (seedCols rnd prob i (s.ny - 2).toNat 1 s).bind (seedRows rnd prob k (i + 1))

/-- Set `currWorld[i][j] = 1`. -/
def setAlive (i j : Int) (s : State) : Option State :=
  (wr s.currWorld i j 1).map (fun cw => { s with currWorld := cw })

/-- The seeding of the initial world (lines 97-117); `none` for an unknown
pattern (the program exits) or for a store outside the allocation. -/
def seed (rnd : Nat → ℚ) (prob : ℚ) (game : Int) (s : State) : Option State :=
  let s := { s with pop_plot := 0 }
  if game = 0 then
    seedRows rnd prob (s.nx - 2).toNat 1 s
  else if game = 1 then
    let nx2 := Int.tdiv s.nx 2
    let ny2 := Int.tdiv s.ny 2
    (setAlive nx2 ny2 s).bind (fun s =>
      (setAlive (nx2 + 1) ny2 s).bind (fun s =>
        (setAlive nx2 (ny2 + 1) s).bind (fun s =>
          (setAlive (nx2 + 1) (ny2 + 1) s).map (fun s => { s with pop_plot := 4 }))))
  else if game = 2 then
    let cx := Int.tdiv s.nx 2
    let cy := Int.tdiv s.ny 2
    (setAlive cx (cy + 1) s).bind (fun s =>
      (setAlive (cx + 1) (cy + 2) s).bind (fun s =>
        (setAlive (cx + 2) (cy + 2) s).bind (fun s =>
          (setAlive (cx + 2) (cy + 1) s).bind (fun s =>
            (setAlive (cx + 2) cy s).map (fun s => { s with pop_plot := 5 })))))
  else none

/-- The state after option parsing, `nx = nx + 2; ny = ny + 2`, allocation and
zeroing, for the option values `n` (`-n`, which sets `nx` only) and `maxiter`
(`-i`); the global `ny` keeps its initial value 100. -/
def initState (n maxiter : Int) : State :=
  { nx := n + 2, ny := 100 + 2, maxiter := maxiter,
    currWorld := zeroWorld (n + 2) (100 + 2), nextWorld := zeroWorld (n + 2) (100 + 2),
    pop_update := 0, pop_plot := 0, t := 0, rcalls := 0, writes := [] }

/-- The program from allocation to the end of the generation loop, for the
option values `n`, `maxiter`, `prob`, `game` and a team of `W` threads. -/
def run (rnd : Nat → ℚ) (prob : ℚ) (game n maxiter W : Int) : Option State :=
  (seed rnd prob game (initState n maxiter)).bind (fun s =>
    simLoop W maxiter.toNat { s with t := 0 })

/-! ## Command line (lines 61-75) -/

/-- The variables set by the option loop. -/
structure Options where
  nx : Int
  maxiter : Int
  numthreads : Int
  prob : ℚ
  seedVal : Int
  s_step : Int
  disable_display : Int
  game : Int
deriving DecidableEq

/-- The values before the option loop: `nx = 100`, `maxiter = 200`, `numthreads = 1`,
`prob = 0.5`, `seedVal = 0`, `s_step = 0`, `disable_display = 0`, `game = 0`. -/
def defaultOptions : Options :=
  { nx := 100, maxiter := 200, numthreads := 1, prob := 1 / 2, seedVal := 0, s_step := 0,
    disable_display := 0, game := 0 }

/-- The C library conversions used by the option loop, on a non-null string. -/
structure Conv where
  atoi : String → Int
  atol : String → Int
  atof : String → ℚ

/-- The outcome of the option loop: the loop ended and the program goes on (`done`), the
usage line was printed and `main` returned -1 (`usage`), or a conversion was applied to
`argv[argc]`, the null pointer that ends `argv` (`nullArg`, undefined behaviour). -/
inductive Parsed where
  | done (o : Options)
  | usage
  | nullArg
deriving DecidableEq

/-- The option loop `for (ac = 1; ac < argc; ac++)` on the arguments `argv[ac], ...` still
to be read; `argv[++ac]` is the next argument, or the null pointer when there is none. -/
def parseArgs (cv : Conv) : List String → Options → Parsed
  | [], o => Parsed.done o
  | a :: tl, o =>
    if a = "-n" then
      match tl with
      | [] => Parsed.nullArg
      | v :: rest => parseArgs cv rest { o with nx := cv.atoi v }
    else if a = "-i" then
      match tl with
      | [] => Parsed.nullArg
      | v :: rest => parseArgs cv rest { o with maxiter := cv.atoi v }
    else if a = "-t" then
      match tl with
      | [] => Parsed.nullArg
      | v :: rest =>
        parseArgs cv rest { o with numthreads := if cv.atoi v < 1 then 1 else cv.atoi v }
    else if a = "-p" then
      match tl with
      | [] => Parsed.nullArg
      | v :: rest => parseArgs cv rest { o with prob := cv.atof v }
    else if a = "-s" then
      match tl with
      | [] => Parsed.nullArg
      | v :: rest => parseArgs cv rest { o with seedVal := cv.atol v }
    else if a = "-step" then parseArgs cv tl { o with s_step := 1 }
    else if a = "-d" then parseArgs cv tl { o with disable_display := 1 }
    else if a = "-g" then
      match tl with
      | [] => Parsed.nullArg
      | v :: rest => parseArgs cv rest { o with game := cv.atoi v }
    else Parsed.usage

/-- The option loop of `main` on the argument vector `argv` (`argv[0]` is the program name). -/
def parseCommandLine (cv : Conv) (argv : List String) : Parsed :=
  parseArgs cv argv.tail defaultOptions


/-! ## Specification vocabulary -/

/-- The cell `(i, j)` of a buffer, 0 outside the allocation. -/
def cellAt (m : World) (i j : Int) : Int := (rd m i j).getD 0

/-- The buffer has `nx` rows of `ny` cells each. -/
def Dim (nx ny : Int) (m : World) : Prop :=
  (m.length : Int) = nx ∧ ∀ r ∈ m, (r.length : Int) = ny

/-- The buffer with the cell `(i, j)` replaced by `v`. -/
def setCell (m : World) (i j : Int) (v : Int) : World :=
  m.set i.toNat ((m.getD i.toNat []).set j.toNat v)

/-- The sum of the eight neighbours of `(ii, jj)`, as a function of the buffer. -/
def nnAt (cw : World) (ii jj : Int) : Int :=
  cellAt cw (ii + 1) jj + cellAt cw (ii - 1) jj + cellAt cw ii (jj + 1) + cellAt cw ii (jj - 1) +
    cellAt cw (ii + 1) (jj + 1) + cellAt cw (ii - 1) (jj - 1) + cellAt cw (ii - 1) (jj + 1) +
    cellAt cw (ii + 1) (jj - 1)

/-- The value the update task stores at `(ii, jj)`, as a function of the current buffer. -/
def newCell (cw : World) (ii jj : Int) : Int := rule (cellAt cw ii jj) (nnAt cw ii jj)

/-- Number of cells `(i, j), ..., (i, j + k - 1)` at which `f` is not 0. -/
def countCols (f : Int → Int → Int) (i : Int) : Nat → Int → Int
  | 0, _ => 0
  | k + 1, j => (if f i j ≠ 0 then 1 else 0) + countCols f i k (j + 1)

/-- The cells `(i, j), ..., (i, j + k - 1)`, in the order the inner loop visits them. -/
def colCells (i : Int) : Nat → Int → List (Int × Int)
  | 0, _ => []
  | k + 1, j => (i, j) :: colCells i k (j + 1)

/-- The cells of `k` rows from row `i`, columns `1 .. w`, in the order the loops visit them. -/
def rowCells (w : Nat) : Nat → Int → List (Int × Int)
  | 0, _ => []
  | k + 1, i => colCells i w 1 ++ rowCells w k (i + 1)

/-- Number of cells in `k` rows from row `i`, columns `1 .. w`, at which `f` is not 0. -/
def countRows (f : Int → Int → Int) (w : Nat) : Nat → Int → Int
  | 0, _ => 0
  | k + 1, i => countCols f i w 1 + countRows f w k (i + 1)

/-- The ranges, in order, tile the rows `a .. b - 1`: each is non-empty, the first
starts at `a`, each next one starts right after the previous end, the last ends at `b - 1`. -/
def Tiles : Int → Int → List RowRange → Prop
  | a, b, [] => a = b
  | a, b, r :: rs => r.start = a ∧ r.start ≤ r.end_ ∧ Tiles (r.end_ + 1) b rs

/-- Total number of rows handed out by `k` iterations of the splitting loop from index `w`. -/
def sizeSum (base rem : Int) : Nat → Int → Int
  | 0, _ => 0
  | k + 1, w => (base + (if w < rem then 1 else 0)) + sizeSum base rem k (w + 1)

/-- Both buffers are allocated with `nx` rows of `ny` cells, ghost cells included. -/
def Allocated (s : State) : Prop :=
  2 ≤ s.nx ∧ 2 ≤ s.ny ∧ Dim s.nx s.ny s.currWorld ∧ Dim s.nx s.ny s.nextWorld

/-- The cell `(i, j)` is an interior cell of an `nx` by `ny` buffer. -/
def Interior (nx ny i j : Int) : Prop := 1 ≤ i ∧ i ≤ nx - 2 ∧ 1 ≤ j ∧ j ≤ ny - 2

instance (nx ny i j : Int) : Decidable (Interior nx ny i j) := by
  unfold Interior; infer_instance

/-- The interior cells `(i, j)`, `1 ≤ i ≤ nx - 2`, `1 ≤ j ≤ ny - 2`, row by row. -/
def interiorCells (nx ny : Int) : List (Int × Int) :=
  (List.range' 1 (nx - 2).toNat).flatMap (fun (i : Nat) =>
    (List.range' 1 (ny - 2).toNat).map (fun (j : Nat) => ((i : Int), (j : Int))))

/-- The alive interior cells of a buffer. -/
def aliveCells (nx ny : Int) (m : World) : List (Int × Int) :=
  (interiorCells nx ny).filter (fun p => cellAt m p.1 p.2 ≠ 0)

/-- Independent re-count: the number of alive interior cells of the buffer. -/
def recount (nx ny : Int) (m : World) : Int := (aliveCells nx ny m).length

/-- Every cell of the buffer is 0 or 1. -/
def Binary (m : World) : Prop := ∀ r ∈ m, ∀ c ∈ r, c = 0 ∨ c = 1

instance (m : World) : Decidable (Binary m) := by
  unfold Binary; infer_instance

/-- Every ghost cell (row 0, row `nx - 1`, column 0, column `ny - 1`) is 0. -/
def BorderDead (nx ny : Int) (m : World) : Prop :=
  ∀ i : Nat, i ∈ List.range nx.toNat → ∀ j : Nat, j ∈ List.range ny.toNat →
    ((i : Int) = 0 ∨ (i : Int) = nx - 1 ∨ (j : Int) = 0 ∨ (j : Int) = ny - 1) →
      cellAt m (i : Int) (j : Int) = 0

instance (nx ny : Int) (m : World) : Decidable (BorderDead nx ny m) := by
  unfold BorderDead; infer_instance

/-- The eight neighbour offsets. -/
def offsets : List (Int × Int) :=
  [(-1, -1), (-1, 0), (-1, 1), (0, -1), (0, 1), (1, -1), (1, 0), (1, 1)]

/-- Number of alive cells among the eight neighbours of `(i, j)`. -/
def liveNeighbours (m : World) (i j : Int) : Nat :=
  offsets.countP (fun d => cellAt m (i + d.1) (j + d.2) ≠ 0)

/-- The Game-of-Life rule: an alive cell survives with 2 or 3 alive neighbours, a dead
cell is born with exactly 3, every other cell is dead. -/
def lifeCell (m : World) (i j : Int) : Int :=
  if cellAt m i j ≠ 0 then
    (if liveNeighbours m i j = 2 ∨ liveNeighbours m i j = 3 then 1 else 0)
  else (if liveNeighbours m i j = 3 then 1 else 0)

/-- The reference synchronous step on an `nx` by `ny` board: every interior cell follows
the rule, every ghost cell is dead. -/
def lifeStep (nx ny : Int) (m : World) : World :=
  (List.range nx.toNat).map (fun (i : Nat) => (List.range ny.toNat).map (fun (j : Nat) =>
    if Interior nx ny (i : Int) (j : Int) then lifeCell m (i : Int) (j : Int) else 0))

instance (nx ny : Int) (m : World) : Decidable (Dim nx ny m) := by
  unfold Dim; infer_instance

instance (s : State) : Decidable (Allocated s) := by
  unfold Allocated; infer_instance

/-- The next buffer once every interior cell has been written by the update tasks:
interior cells hold the new value computed from `cw`, ghost cells keep the content of `nw`. -/
def nextBuf (nx ny : Int) (cw nw : World) : World :=
  (List.range nx.toNat).map (fun (i : Nat) => (List.range ny.toNat).map (fun (j : Nat) =>
    if Interior nx ny (i : Int) (j : Int) then newCell cw (i : Int) (j : Int)
    else cellAt nw (i : Int) (j : Int)))

/-- The state after the update phase, described functionally. -/
def updPure (s : State) : State :=
  { s with
    nextWorld := nextBuf s.nx s.ny s.currWorld s.nextWorld,
    pop_update := recount s.nx s.ny (nextBuf s.nx s.ny s.currWorld s.nextWorld),
    writes := s.writes ++ interiorCells s.nx s.ny }

/-- The state after one generation (update phase and swap), described functionally. -/
def genPure (s : State) : State := swapWorlds (updPure s)

/-- The invariant of the generation loop on a well-seeded board: both buffers allocated,
the current buffer holds 0/1 cells, the ghost cells of both buffers are dead. -/
def Inv (s : State) : Prop :=
  Allocated s ∧ (∀ i j, cellAt s.currWorld i j = 0 ∨ cellAt s.currWorld i j = 1) ∧
    (∀ i j, ¬ Interior s.nx s.ny i j → cellAt s.currWorld i j = 0) ∧
    (∀ i j, ¬ Interior s.nx s.ny i j → cellAt s.nextWorld i j = 0)

/-- A small board used to instantiate the general statements: 4 by 4 cells with ghost
cells, three alive interior cells. -/
def demoState : State :=
  { nx := 4, ny := 4, maxiter := 2,
    currWorld := [[0, 0, 0, 0], [0, 1, 1, 0], [0, 1, 0, 0], [0, 0, 0, 0]],
    nextWorld := zeroWorld 4 4,
    pop_update := 0, pop_plot := 3, t := 0, rcalls := 0, writes := [] }

/-- The neighbour sum of `(i, j)` for a board given as a function. -/
def nn8 (f : Int → Int → Int) (i j : Int) : Int :=
  f (i + 1) j + f (i - 1) j + f i (j + 1) + f i (j - 1) +
    f (i + 1) (j + 1) + f (i - 1) (j - 1) + f (i - 1) (j + 1) + f (i + 1) (j - 1)

/-- The value stored at `(i, j)` for a current board given as a function. -/
def newFn (f : Int → Int → Int) (i j : Int) : Int := rule (f i j) (nn8 f i j)

/-- One generation on boards given as functions: the new current board. -/
def stepFn (nx ny : Int) (cur nxt : Int → Int → Int) : Int → Int → Int :=
  fun i j => if Interior nx ny i j then newFn cur i j else nxt i j

/-- The current and the next board after `k` generations, as functions. -/
def evolve (nx ny : Int) (c0 n0 : Int → Int → Int) :
    Nat → (Int → Int → Int) × (Int → Int → Int)
  | 0 => (c0, n0)
  | k + 1 => (stepFn nx ny (evolve nx ny c0 n0 k).1 (evolve nx ny c0 n0 k).2,
      (evolve nx ny c0 n0 k).1)

/-- Number of interior cells at which the board `f` is alive. -/
def countFn (nx ny : Int) (f : Int → Int → Int) : Int :=
  ((interiorCells nx ny).countP (fun p => decide (f p.1 p.2 ≠ 0)) : Nat)

/-- The board with every interior cell alive and every ghost cell dead. -/
def fullFn (nx ny : Int) : Int → Int → Int :=
  fun i j => if Interior nx ny i j then 1 else 0

/-- The board `f` with the cell `(i, j)` replaced by `v`. -/
def setFn (f : Int → Int → Int) (i j v : Int) : Int → Int → Int :=
  fun a b => if a = i ∧ b = j then v else f a b

/-- The board with no alive cell. -/
def deadFn : Int → Int → Int := fun _ _ => 0

/-- The buffer seeded by pattern 2 from an all-zero buffer, for `cx = nx / 2`, `cy = ny / 2`. -/
def gliderWorld (nx ny cx cy : Int) : World :=
  setCell (setCell (setCell (setCell (setCell (zeroWorld nx ny) cx (cy + 1) 1)
    (cx + 1) (cy + 2) 1) (cx + 2) (cy + 2) 1) (cx + 2) (cy + 1) 1) (cx + 2) cy 1

/-- The board seeded by pattern 2, as a function. -/
def gliderFn (cx cy : Int) : Int → Int → Int :=
  setFn (setFn (setFn (setFn (setFn deadFn cx (cy + 1) 1)
    (cx + 1) (cy + 2) 1) (cx + 2) (cy + 2) 1) (cx + 2) (cy + 1) 1) (cx + 2) cy 1

/-- The buffer seeded by pattern 1 from an all-zero buffer, for `nx2 = nx / 2`, `ny2 = ny / 2`. -/
def blockWorld (nx ny nx2 ny2 : Int) : World :=
  setCell (setCell (setCell (setCell (zeroWorld nx ny) nx2 ny2 1)
    (nx2 + 1) ny2 1) nx2 (ny2 + 1) 1) (nx2 + 1) (ny2 + 1) 1

/-- Indicator of the two consecutive indices `a`, `a + 1`. -/
def band (a i : Int) : Int := if i = a ∨ i = a + 1 then 1 else 0

/-- The four-cell block with upper left cell `(a, b)`, as a function. -/
def blockFn (a b : Int) : Int → Int → Int :=
  fun i j => if (i = a ∨ i = a + 1) ∧ (j = b ∨ j = b + 1) then 1 else 0

/-! ## Auxiliary facts -/

/-! ## Buffers, loops and row splitting: auxiliary facts -/

theorem rd_eq_some {nx ny : Int} {m : World} (hm : Dim nx ny m) {i j : Int}
    (hi0 : 0 ≤ i) (hi : i < nx) (hj0 : 0 ≤ j) (hj : j < ny) :
    rd m i j = some (cellAt m i j) := by
  obtain ⟨hl, hr⟩ := hm
  have h1 : i.toNat < m.length := by omega
  have h2 : (m[i.toNat].length : Int) = ny := hr _ (List.getElem_mem _)
  have h3 : j.toNat < m[i.toNat].length := by omega
  simp [cellAt, rd, hi0, hj0, List.getElem?_eq_getElem h1, List.getElem?_eq_getElem h3]

theorem wr_eq_some {nx ny : Int} {m : World} (hm : Dim nx ny m) {i j : Int} (v : Int)
    (hi0 : 0 ≤ i) (hi : i < nx) (hj0 : 0 ≤ j) (hj : j < ny) :
    wr m i j v = some (setCell m i j v) := by
  obtain ⟨hl, hr⟩ := hm
  have h1 : i.toNat < m.length := by omega
  have h2 : (m[i.toNat].length : Int) = ny := hr _ (List.getElem_mem _)
  have h3 : j.toNat < m[i.toNat].length := by omega
  simp [wr, setCell, hi0, hj0, List.getElem?_eq_getElem h1, h3, List.getD_eq_getElem?_getD]

theorem Dim_setCell {nx ny : Int} {m : World} (hm : Dim nx ny m) (i j v : Int) :
    Dim nx ny (setCell m i j v) := by
  obtain ⟨hl, hr⟩ := hm
  refine ⟨by simpa [setCell] using hl, ?_⟩
  intro r hr1
  by_cases h1 : i.toNat < m.length
  · rcases List.mem_or_eq_of_mem_set hr1 with h | h
    · exact hr r h
    · subst h
      rw [List.length_set, List.getD_eq_getElem?_getD, List.getElem?_eq_getElem h1]
      exact hr _ (List.getElem_mem _)
  · unfold setCell at hr1
    rw [List.set_eq_of_length_le (by omega)] at hr1
    exact hr r hr1

theorem cellAt_setCell {nx ny : Int} {m : World} (hm : Dim nx ny m) {i j : Int} (v : Int)
    (hi0 : 0 ≤ i) (hi : i < nx) (hj0 : 0 ≤ j) (hj : j < ny) (i' j' : Int) :
    cellAt (setCell m i j v) i' j' = if i' = i ∧ j' = j then v else cellAt m i' j' := by
  obtain ⟨hl, hr⟩ := hm
  have h1 : i.toNat < m.length := by omega
  have h2 : (m[i.toNat].length : Int) = ny := hr _ (List.getElem_mem _)
  have h3 : j.toNat < m[i.toNat].length := by omega
  unfold cellAt rd setCell
  by_cases hi' : 0 ≤ i' <;> by_cases hj' : 0 ≤ j'
  · simp only [hi', hj', and_self, if_true]
    rw [List.getElem?_set]
    by_cases e : i.toNat = i'.toNat
    · have e' : i' = i := by omega
      subst e'
      simp only [h1, if_true, true_and, List.getD_eq_getElem?_getD, List.getElem?_eq_getElem h1,
        Option.getD_some]
      rw [List.getElem?_set]
      by_cases f : j.toNat = j'.toNat
      · have f' : j' = j := by omega
        subst f'
        simp [h3]
      · have f' : j' ≠ j := by omega
        simp [f, f']
    · have e' : i' ≠ i := by omega
      simp [e, e']
  · have : ¬ (i' = i ∧ j' = j) := by omega
    simp [hi', hj', this]
  · have : ¬ (i' = i ∧ j' = j) := by omega
    simp [hi', hj', this]
  · have : ¬ (i' = i ∧ j' = j) := by omega
    simp [hi', hj', this]

theorem neighbourSum_eq {nx ny : Int} {cw : World} (hm : Dim nx ny cw) {ii jj : Int}
    (hi0 : 1 ≤ ii) (hi : ii ≤ nx - 2) (hj0 : 1 ≤ jj) (hj : jj ≤ ny - 2) :
    neighbourSum cw ii jj = some (nnAt cw ii jj) := by
  unfold neighbourSum nnAt
  rw [rd_eq_some hm (i := ii + 1) (j := jj) (by omega) (by omega) (by omega) (by omega),
    rd_eq_some hm (i := ii - 1) (j := jj) (by omega) (by omega) (by omega) (by omega),
    rd_eq_some hm (i := ii) (j := jj + 1) (by omega) (by omega) (by omega) (by omega),
    rd_eq_some hm (i := ii) (j := jj - 1) (by omega) (by omega) (by omega) (by omega),
    rd_eq_some hm (i := ii + 1) (j := jj + 1) (by omega) (by omega) (by omega) (by omega),
    rd_eq_some hm (i := ii - 1) (j := jj - 1) (by omega) (by omega) (by omega) (by omega),
    rd_eq_some hm (i := ii - 1) (j := jj + 1) (by omega) (by omega) (by omega) (by omega),
    rd_eq_some hm (i := ii + 1) (j := jj - 1) (by omega) (by omega) (by omega) (by omega)]
  rfl

theorem updateCell_eq {nx ny : Int} {s : State} (hc : Dim nx ny s.currWorld)
    (hn : Dim nx ny s.nextWorld) {ii jj : Int}
    (hi0 : 1 ≤ ii) (hi : ii ≤ nx - 2) (hj0 : 1 ≤ jj) (hj : jj ≤ ny - 2) :
    updateCell ii jj s = some { s with
      nextWorld := setCell s.nextWorld ii jj (newCell s.currWorld ii jj),
      pop_update := s.pop_update + (if newCell s.currWorld ii jj ≠ 0 then 1 else 0),
      writes := s.writes ++ [(ii, jj)] } := by
  have hw := wr_eq_some hn (i := ii) (j := jj) (newCell s.currWorld ii jj)
    (by omega) (by omega) (by omega) (by omega)
  have hr := rd_eq_some (Dim_setCell hn ii jj (newCell s.currWorld ii jj)) (i := ii) (j := jj)
    (by omega) (by omega) (by omega) (by omega)
  have hx := cellAt_setCell hn (i := ii) (j := jj) (newCell s.currWorld ii jj)
    (by omega) (by omega) (by omega) (by omega) ii jj
  simp only [and_self, if_true] at hx
  rw [hx] at hr
  unfold updateCell
  rw [neighbourSum_eq hc hi0 hi hj0 hj,
    rd_eq_some hc (i := ii) (j := jj) (by omega) (by omega) (by omega) (by omega)]
  simp only [Option.bind_eq_bind, Option.some_bind]
  change (wr s.nextWorld ii jj (newCell s.currWorld ii jj)).bind _ = _
  rw [hw]
  simp only [Option.some_bind, hr]
  by_cases h : newCell s.currWorld ii jj = 0
  · simp [h]
  · simp [h]

theorem colLoop_spec {nx ny : Int} (ii : Int) (hi0 : 1 ≤ ii) (hi : ii ≤ nx - 2) :
    ∀ (k : Nat) (jj : Int) (s : State), Dim nx ny s.currWorld → Dim nx ny s.nextWorld →
      1 ≤ jj → jj + k ≤ ny - 1 →
      ∃ nw, colLoop ii k jj s = some { s with
          nextWorld := nw,
          pop_update := s.pop_update + countCols (newCell s.currWorld) ii k jj,
          writes := s.writes ++ colCells ii k jj } ∧
        Dim nx ny nw ∧
        ∀ i j, cellAt nw i j =
          if i = ii ∧ jj ≤ j ∧ j < jj + k then newCell s.currWorld i j
          else cellAt s.nextWorld i j := by
  intro k
  induction k with
  | zero =>
    intro jj s _ hn _ _
    refine ⟨s.nextWorld, ?_, hn, ?_⟩
    · simp [colLoop, countCols, colCells]
    · intro i j
      rw [if_neg]
      push_cast
      omega
  | succ k ih =>
    intro jj s hc hn hj0 hj
    push_cast at hj
    have hu := updateCell_eq hc hn hi0 hi hj0 (by omega : jj ≤ ny - 2)
    obtain ⟨nw, h1, h2, h3⟩ := ih (jj + 1)
      { s with
        nextWorld := setCell s.nextWorld ii jj (newCell s.currWorld ii jj),
        pop_update := s.pop_update + (if newCell s.currWorld ii jj ≠ 0 then 1 else 0),
        writes := s.writes ++ [(ii, jj)] }
      hc (Dim_setCell hn _ _ _) (by omega) (by omega)
    dsimp only at h1 h3
    refine ⟨nw, ?_, h2, ?_⟩
    · simp only [colLoop, hu, Option.some_bind, h1, countCols, colCells]
      simp only [add_assoc, List.append_assoc, List.singleton_append]
    · intro i j
      rw [h3 i j, cellAt_setCell hn _ (by omega) (by omega) (by omega) (by omega)]
      push_cast
      split_ifs with a b c d e
      · rfl
      · omega
      · obtain ⟨rfl, rfl⟩ := c
        rfl
      · omega
      · omega
      · rfl

theorem rowLoop_spec {nx ny : Int} (hny : 2 ≤ ny) :
    ∀ (k : Nat) (ii : Int) (s : State), s.ny = ny → Dim nx ny s.currWorld →
      Dim nx ny s.nextWorld → 1 ≤ ii → ii + k ≤ nx - 1 →
      ∃ nw, rowLoop k ii s = some { s with
          nextWorld := nw,
          pop_update := s.pop_update + countRows (newCell s.currWorld) (ny - 2).toNat k ii,
          writes := s.writes ++ rowCells (ny - 2).toNat k ii } ∧
        Dim nx ny nw ∧
        ∀ i j, cellAt nw i j =
          if ii ≤ i ∧ i < ii + k ∧ 1 ≤ j ∧ j ≤ ny - 2 then newCell s.currWorld i j
          else cellAt s.nextWorld i j := by
  intro k
  induction k with
  | zero =>
    intro ii s _ _ hn _ _
    refine ⟨s.nextWorld, ?_, hn, ?_⟩
    · simp [rowLoop, countRows, rowCells]
    · intro i j
      rw [if_neg]
      push_cast
      omega
  | succ k ih =>
    intro ii s hs hc hn hi0 hi
    subst hs
    push_cast at hi
    obtain ⟨nw1, g1, g2, g3⟩ := @colLoop_spec nx s.ny ii hi0 (by omega)
      (s.ny - 2).toNat 1 s hc hn (by omega) (by omega)
    obtain ⟨nw, h1, h2, h3⟩ := ih (ii + 1)
      { s with
        nextWorld := nw1,
        pop_update := s.pop_update + countCols (newCell s.currWorld) ii (s.ny - 2).toNat 1,
        writes := s.writes ++ colCells ii (s.ny - 2).toNat 1 }
      rfl hc g2 (by omega) (by omega)
    dsimp only at h1 h3
    refine ⟨nw, ?_, h2, ?_⟩
    · rw [rowLoop, g1, Option.some_bind, h1]
      simp only [countRows, rowCells, add_assoc, List.append_assoc]
    · intro i j
      rw [h3 i j, g3 i j]
      have e : ((s.ny - 2).toNat : Int) = s.ny - 2 := by omega
      rw [e]
      push_cast
      split_ifs with a b c d e
      · rfl
      · omega
      · obtain ⟨rfl, _⟩ := c
        rfl
      · omega
      · omega
      · rfl

theorem rowLoop_add (k1 k2 : Nat) : ∀ (ii : Int) (s : State),
    rowLoop (k1 + k2) ii s = (rowLoop k1 ii s).bind (rowLoop k2 (ii + k1)) := by
  induction k1 with
  | zero => intro ii s; simp [rowLoop]
  | succ k ih =>
    intro ii s
    rw [show k + 1 + k2 = (k + k2) + 1 by omega]
    simp only [rowLoop]
    cases h : colLoop ii (s.ny - 2).toNat 1 s with
    | none => simp
    | some s1 =>
      simp only [Option.some_bind]
      rw [ih]
      push_cast
      rw [show ii + 1 + (k : Int) = ii + ((k : Int) + 1) by ring]

theorem splitLoop_length (base rem : Int) : ∀ (k : Nat) (w row : Int),
    (splitLoop base rem k w row).length = k := by
  intro k
  induction k with
  | zero => intro w row; rfl
  | succ k ih => intro w row; simp [splitLoop, ih]

theorem splitLoop_my_rows (base rem : Int) : ∀ (k : Nat) (w row : Int) (idx : Nat)
    (h : idx < (splitLoop base rem k w row).length),
    ((splitLoop base rem k w row)[idx]).my_rows = base + (if w + idx < rem then 1 else 0) := by
  intro k
  induction k with
  | zero => intro w row idx h; simp [splitLoop] at h
  | succ k ih =>
    intro w row idx h
    cases idx with
    | zero => simp [splitLoop]
    | succ idx =>
      simp only [splitLoop, List.getElem_cons_succ]
      rw [ih]
      push_cast
      rw [show w + 1 + (idx : Int) = w + ((idx : Int) + 1) by ring]

theorem splitLoop_end (base rem : Int) : ∀ (k : Nat) (w row : Int),
    ∀ r ∈ splitLoop base rem k w row, r.end_ = r.start + r.my_rows - 1 := by
  intro k
  induction k with
  | zero => intro w row r hr; simp [splitLoop] at hr
  | succ k ih =>
    intro w row r hr
    simp only [splitLoop, List.mem_cons] at hr
    rcases hr with h | h
    · subst h; rfl
    · exact ih _ _ r h

theorem Tiles_spawned_splitLoop (base rem : Int) (hb : 0 ≤ base) : ∀ (k : Nat) (w row : Int),
    Tiles row (row + sizeSum base rem k w) (spawned (splitLoop base rem k w row)) := by
  intro k
  induction k with
  | zero => intro w row; simp [splitLoop, spawned, Tiles, sizeSum]
  | succ k ih =>
    intro w row
    simp only [splitLoop, spawned, sizeSum]
    by_cases hw : w < rem
    · have h1 : ¬ (base + 1 ≤ 0) := by omega
      simp only [hw, if_true]
      rw [List.filter_cons_of_pos (by simpa using h1)]
      refine ⟨rfl, by simp only []; omega, ?_⟩
      have := ih (w + 1) (row + (base + 1) - 1 + 1)
      simp only [spawned] at this
      rw [show row + (base + 1) - 1 + 1 + sizeSum base rem k (w + 1)
        = row + (base + 1 + sizeSum base rem k (w + 1)) by ring] at this
      exact this
    · simp only [hw, if_false, add_zero]
      by_cases h0 : base ≤ 0
      · have hb0 : base = 0 := by omega
        rw [List.filter_cons_of_neg (by simpa using h0)]
        have := ih (w + 1) (row + base - 1 + 1)
        simp only [spawned] at this
        subst hb0
        simpa using this
      · rw [List.filter_cons_of_pos (by simpa using h0)]
        refine ⟨rfl, by simp only []; omega, ?_⟩
        have := ih (w + 1) (row + base - 1 + 1)
        simp only [spawned] at this
        rw [show row + base - 1 + 1 + sizeSum base rem k (w + 1)
          = row + (base + sizeSum base rem k (w + 1)) by ring] at this
        exact this

theorem sizeSum_eq (base rem : Int) : ∀ (k : Nat) (w : Int),
    sizeSum base rem k w =
      k * base + (if w + k ≤ rem then (k : Int) else if rem ≤ w then 0 else rem - w) := by
  intro k
  induction k with
  | zero => intro w; simp only [sizeSum]; split_ifs <;> push_cast <;> omega
  | succ k ih =>
    intro w
    simp only [sizeSum, ih]
    push_cast
    rw [add_mul, one_mul]
    split_ifs <;> omega

theorem sizeSum_rowRanges (R W : Int) (hR : 0 ≤ R) (hW : 1 ≤ W) :
    sizeSum (Int.tdiv R W) (Int.tmod R W) W.toNat 0 = R := by
  rw [sizeSum_eq, Int.tdiv_eq_ediv hR (by omega), Int.tmod_eq_emod hR (by omega)]
  have h1 : ((W.toNat : Nat) : Int) = W := by omega
  have h2 : R % W < W := Int.emod_lt_of_pos R (by omega)
  have h3 : 0 ≤ R % W := Int.emod_nonneg R (by omega)
  have h4 : W * (R / W) + R % W = R := Int.ediv_add_emod R W
  rw [h1]
  split_ifs <;> nlinarith

theorem Tiles_rowRanges (R W : Int) (hR : 0 ≤ R) (hW : 1 ≤ W) :
    Tiles 1 (R + 1) (spawned (rowRanges R W)) := by
  have hb : 0 ≤ Int.tdiv R W := by
    rw [Int.tdiv_eq_ediv hR (by omega)]
    exact Int.ediv_nonneg hR (by omega)
  have := Tiles_spawned_splitLoop (Int.tdiv R W) (Int.tmod R W) hb W.toNat 0 1
  rw [sizeSum_rowRanges R W hR hW, add_comm] at this
  exact this

theorem Tiles_le : ∀ (l : List RowRange) (a b : Int), Tiles a b l → a ≤ b := by
  intro l
  induction l with
  | nil => intro a b h; simp only [Tiles] at h; omega
  | cons r rs ih =>
    intro a b h
    obtain ⟨h1, h2, h3⟩ := h
    have := ih _ _ h3
    omega

theorem runTasks_Tiles : ∀ (l : List RowRange) (a b : Int) (s : State), Tiles a b l →
    runTasks l s = rowLoop (b - a).toNat a s := by
  intro l
  induction l with
  | nil =>
    intro a b s h
    simp only [Tiles] at h
    subst h
    simp [runTasks, rowLoop]
  | cons r rs ih =>
    intro a b s h
    obtain ⟨h1, h2, h3⟩ := h
    have h4 := Tiles_le _ _ _ h3
    have e : (b - a).toNat = (r.end_ - r.start + 1).toNat + (b - (r.end_ + 1)).toNat := by omega
    rw [e, rowLoop_add]
    simp only [runTasks, runTask, h1]
    congr 1
    funext s1
    rw [ih _ _ s1 h3]
    congr 1
    omega

theorem countCols_congr (f g : Int → Int → Int) (i : Int) : ∀ (k : Nat) (j : Int),
    (∀ j1 : Int, j ≤ j1 → j1 < j + k → f i j1 = g i j1) → countCols f i k j = countCols g i k j := by
  intro k
  induction k with
  | zero => intro j _; rfl
  | succ k ih =>
    intro j h
    simp only [countCols]
    rw [h j (by omega) (by push_cast; omega), ih (j + 1)]
    intro j' h1 h2
    exact h j' (by omega) (by push_cast; omega)

theorem countRows_congr (f g : Int → Int → Int) (w : Nat) : ∀ (k : Nat) (i : Int),
    (∀ i1 j1 : Int, i ≤ i1 → i1 < i + k → 1 ≤ j1 → j1 < 1 + w → f i1 j1 = g i1 j1) →
    countRows f w k i = countRows g w k i := by
  intro k
  induction k with
  | zero => intro i _; rfl
  | succ k ih =>
    intro i h
    simp only [countRows]
    rw [countCols_congr f g i w 1 (fun j' h1 h2 => h i j' (by omega) (by push_cast; omega) h1 h2),
      ih (i + 1)]
    intro i' j' h1 h2 h3 h4
    exact h i' j' (by omega) (by push_cast; omega) h3 h4

theorem countCols_eq_countP (f : Int → Int → Int) (i : Int) : ∀ (k a : Nat),
    countCols f i k (a : Int) =
      ((List.range' a k).countP (fun (j : Nat) => decide (f i (j : Int) ≠ 0)) : Nat) := by
  intro k
  induction k with
  | zero => intro a; simp [countCols]
  | succ k ih =>
    intro a
    have := ih (a + 1)
    push_cast at this
    simp only [countCols, List.range'_succ, List.countP_cons, this]
    push_cast
    by_cases h : f i a = 0 <;> simp [h]
    ring

theorem countRows_eq_countP (f : Int → Int → Int) (w : Nat) : ∀ (k a : Nat),
    countRows f w k (a : Int) =
      (((List.range' a k).flatMap (fun (i : Nat) =>
        (List.range' 1 w).map (fun (j : Nat) => ((i : Int), (j : Int))))).countP
          (fun p => decide (f p.1 p.2 ≠ 0)) : Nat) := by
  intro k
  induction k with
  | zero => intro a; simp [countRows]
  | succ k ih =>
    intro a
    have h1 := ih (a + 1)
    have h2 := countCols_eq_countP f a w 1
    push_cast at h1 h2
    simp only [countRows, List.range'_succ, List.flatMap_cons, List.countP_append,
      List.countP_map, h1, h2]
    push_cast
    rfl

theorem countRows_eq_recount (nx ny : Int) (m : World) :
    countRows (cellAt m) (ny - 2).toNat (nx - 2).toNat 1 = recount nx ny m := by
  have := countRows_eq_countP (cellAt m) (ny - 2).toNat (nx - 2).toNat 1
  push_cast at this
  rw [this]
  simp [recount, aliveCells, interiorCells, List.countP_eq_length_filter]

theorem colCells_eq_map (i : Int) : ∀ (k a : Nat),
    colCells i k (a : Int) = (List.range' a k).map (fun (j : Nat) => (i, (j : Int))) := by
  intro k
  induction k with
  | zero => intro a; rfl
  | succ k ih =>
    intro a
    have := ih (a + 1)
    push_cast at this
    simp only [colCells, List.range'_succ, List.map_cons, this]

theorem rowCells_eq_flatMap (w : Nat) : ∀ (k a : Nat),
    rowCells w k (a : Int) = (List.range' a k).flatMap (fun (i : Nat) =>
      (List.range' 1 w).map (fun (j : Nat) => ((i : Int), (j : Int)))) := by
  intro k
  induction k with
  | zero => intro a; rfl
  | succ k ih =>
    intro a
    have h1 := ih (a + 1)
    have h2 := colCells_eq_map a w 1
    push_cast at h1 h2
    simp only [rowCells, List.range'_succ, List.flatMap_cons, h1, h2]

theorem rowCells_eq_interiorCells (nx ny : Int) :
    rowCells (ny - 2).toNat (nx - 2).toNat 1 = interiorCells nx ny := by
  have := rowCells_eq_flatMap (ny - 2).toNat (nx - 2).toNat 1
  push_cast at this
  rw [this]
  rfl

theorem updatePhase_spec (W : Int) (hW : 1 ≤ W) (s : State) (hs : Allocated s) :
    ∃ nw, updatePhase W s = some { s with
        nextWorld := nw, pop_update := recount s.nx s.ny nw,
        writes := s.writes ++ interiorCells s.nx s.ny } ∧
      Dim s.nx s.ny nw ∧
      ∀ i j, cellAt nw i j =
        if Interior s.nx s.ny i j then newCell s.currWorld i j else cellAt s.nextWorld i j := by
  obtain ⟨hnx, hny, hc, hn⟩ := hs
  have ht := Tiles_rowRanges (s.nx - 2) W (by omega) hW
  obtain ⟨nw, h1, h2, h3⟩ := @rowLoop_spec s.nx s.ny hny (s.nx - 2).toNat 1
    { s with pop_update := 0 } rfl hc hn (by omega) (by omega)
  dsimp only at h1 h3
  have e : ((s.nx - 2).toNat : Int) = s.nx - 2 := by omega
  have h3' : ∀ i j, cellAt nw i j =
      if Interior s.nx s.ny i j then newCell s.currWorld i j else cellAt s.nextWorld i j := by
    intro i j
    rw [h3 i j, e]
    unfold Interior
    split_ifs with a b b
    · rfl
    · omega
    · omega
    · rfl
  refine ⟨nw, ?_, h2, h3'⟩
  unfold updatePhase
  rw [runTasks_Tiles _ _ _ _ ht, show s.nx - 2 + 1 - 1 = s.nx - 2 by ring, h1,
    rowCells_eq_interiorCells, zero_add]
  have hp : countRows (newCell s.currWorld) (s.ny - 2).toNat (s.nx - 2).toNat 1 =
      recount s.nx s.ny nw := by
    rw [← countRows_eq_recount]
    apply countRows_congr
    intro i' j' a b c d
    rw [h3' i' j', if_pos]
    unfold Interior
    omega
  rw [hp]

theorem cellAt_eq_getElem (m : World) (i j : Nat) (hi : i < m.length) (hj : j < m[i].length) :
    cellAt m i j = m[i][j] := by
  simp [cellAt, rd, List.getElem?_eq_getElem hi, List.getElem?_eq_getElem hj]

theorem cellAt_of_not_inRange {nx ny : Int} {m : World} (hm : Dim nx ny m) (i j : Int)
    (h : ¬ (0 ≤ i ∧ i < nx ∧ 0 ≤ j ∧ j < ny)) : cellAt m i j = 0 := by
  obtain ⟨hl, hr⟩ := hm
  unfold cellAt rd
  by_cases h0 : 0 ≤ i ∧ 0 ≤ j
  · rw [if_pos h0]
    by_cases h1 : i.toNat < m.length
    · have h2 : (m[i.toNat].length : Int) = ny := hr _ (List.getElem_mem _)
      have h3 : m[i.toNat].length ≤ j.toNat := by omega
      simp [List.getElem?_eq_getElem h1, List.getElem?_eq_none h3]
    · simp [List.getElem?_eq_none (Nat.le_of_not_lt h1)]
  · rw [if_neg h0]; rfl

theorem world_ext {nx ny : Int} {m m' : World} (hm : Dim nx ny m) (hm' : Dim nx ny m')
    (h : ∀ i j, cellAt m i j = cellAt m' i j) : m = m' := by
  obtain ⟨hl, hr⟩ := hm
  obtain ⟨hl', hr'⟩ := hm'
  apply List.ext_getElem (by omega)
  intro i h1 h2
  have e1 : (m[i].length : Int) = ny := hr _ (List.getElem_mem _)
  have e2 : (m'[i].length : Int) = ny := hr' _ (List.getElem_mem _)
  apply List.ext_getElem (by omega)
  intro j g1 g2
  have := h i j
  rw [cellAt_eq_getElem m i j h1 g1, cellAt_eq_getElem m' i j h2 g2] at this
  exact this

theorem Binary_cellAt {m : World} (hb : Binary m) (i j : Int) :
    cellAt m i j = 0 ∨ cellAt m i j = 1 := by
  unfold cellAt rd
  by_cases h0 : 0 ≤ i ∧ 0 ≤ j
  · rw [if_pos h0]
    by_cases h1 : i.toNat < m.length
    · by_cases h2 : j.toNat < m[i.toNat].length
      · have := hb _ (List.getElem_mem h1) _ (List.getElem_mem h2)
        simpa [List.getElem?_eq_getElem h1, List.getElem?_eq_getElem h2] using this
      · simp [List.getElem?_eq_getElem h1, List.getElem?_eq_none (Nat.le_of_not_lt h2)]
    · simp [List.getElem?_eq_none (Nat.le_of_not_lt h1)]
  · rw [if_neg h0]; simp

theorem BorderDead_cellAt {nx ny : Int} {m : World} (hm : Dim nx ny m)
    (hb : BorderDead nx ny m) (i j : Int) (h : ¬ Interior nx ny i j) : cellAt m i j = 0 := by
  by_cases hr : 0 ≤ i ∧ i < nx ∧ 0 ≤ j ∧ j < ny
  · have := hb i.toNat (List.mem_range.2 (by omega)) j.toNat (List.mem_range.2 (by omega))
    have ei : ((i.toNat : Nat) : Int) = i := by omega
    have ej : ((j.toNat : Nat) : Int) = j := by omega
    rw [ei, ej] at this
    apply this
    unfold Interior at h
    omega
  · exact cellAt_of_not_inRange hm i j hr

theorem cellAt_table (a b : Nat) (f : Nat → Nat → Int) (i j : Int) :
    cellAt ((List.range a).map (fun (x : Nat) => (List.range b).map (fun (y : Nat) => f x y))) i j =
      if 0 ≤ i ∧ i.toNat < a ∧ 0 ≤ j ∧ j.toNat < b then f i.toNat j.toNat else 0 := by
  unfold cellAt rd
  by_cases h0 : 0 ≤ i ∧ 0 ≤ j
  · rw [if_pos h0]
    by_cases h1 : i.toNat < a
    · by_cases h2 : j.toNat < b
      · simp [List.getElem?_map, List.getElem?_range, h0, h1, h2,
          List.getElem?_eq_getElem]
      · have e : (List.range b)[j.toNat]? = none :=
          List.getElem?_eq_none (by simp only [List.length_range]; omega)
        simp [List.getElem?_map, List.getElem?_range, h0, h1, h2, e,
          List.getElem?_eq_getElem]
    · have e : (List.range a)[i.toNat]? = none :=
        List.getElem?_eq_none (by simp only [List.length_range]; omega)
      rw [if_neg (by omega)]
      simp [List.getElem?_map, e]
  · rw [if_neg h0, if_neg (by omega)]; rfl

theorem Dim_lifeStep (nx ny : Int) (hnx : 0 ≤ nx) (hny : 0 ≤ ny) (m : World) :
    Dim nx ny (lifeStep nx ny m) := by
  refine ⟨by simp only [lifeStep, List.length_map, List.length_range]; omega, ?_⟩
  intro r hr
  simp only [lifeStep, List.mem_map] at hr
  obtain ⟨i, _, rfl⟩ := hr
  simp only [List.length_map, List.length_range]
  omega

theorem cellAt_lifeStep (nx ny : Int) (m : World) (i j : Int) :
    cellAt (lifeStep nx ny m) i j = if Interior nx ny i j then lifeCell m i j else 0 := by
  unfold lifeStep
  rw [cellAt_table]
  by_cases h : Interior nx ny i j
  · have h' := h
    unfold Interior at h'
    have ei : ((i.toNat : Nat) : Int) = i := by omega
    have ej : ((j.toNat : Nat) : Int) = j := by omega
    rw [if_pos (by omega), ei, ej]
  · rw [if_neg h]
    split_ifs with h1 h2
    · exfalso
      apply h
      have ei : ((i.toNat : Nat) : Int) = i := by omega
      have ej : ((j.toNat : Nat) : Int) = j := by omega
      rw [ei, ej] at h2
      exact h2
    · rfl
    · rfl

theorem ite_binary {c : Int} (h : c = 0 ∨ c = 1) : (if c ≠ 0 then (1 : Int) else 0) = c := by
  rcases h with h | h <;> simp [h]

theorem nnAt_eq_liveNeighbours {m : World} (hb : ∀ i j, cellAt m i j = 0 ∨ cellAt m i j = 1)
    (i j : Int) : nnAt m i j = liveNeighbours m i j := by
  have key : ∀ a b : Int,
      (if decide (cellAt m a b ≠ 0) = true then (1 : Int) else 0) = cellAt m a b := by
    intro a b
    rcases hb a b with h | h <;> simp [h]
  unfold nnAt liveNeighbours offsets
  simp only [List.countP_cons, List.countP_nil]
  push_cast
  simp only [key]
  rw [show i + 0 = i by ring, show j + 0 = j by ring, show i + -1 = i - 1 by ring,
    show j + -1 = j - 1 by ring]
  ring

theorem newCell_eq_lifeCell {m : World} (hb : ∀ i j, cellAt m i j = 0 ∨ cellAt m i j = 1)
    (i j : Int) : newCell m i j = lifeCell m i j := by
  unfold newCell lifeCell rule
  rw [nnAt_eq_liveNeighbours hb]
  by_cases h : cellAt m i j = 0
  · simp only [h, ne_eq, not_true_eq_false, if_false]
    norm_cast
  · simp only [h, ne_eq, not_false_eq_true, if_true]
    norm_cast

theorem rule_binary (c nn : Int) : rule c nn = 0 ∨ rule c nn = 1 := by
  unfold rule
  split_ifs <;> simp

theorem Dim_nextBuf (nx ny : Int) (hnx : 0 ≤ nx) (hny : 0 ≤ ny) (cw nw : World) :
    Dim nx ny (nextBuf nx ny cw nw) := by
  refine ⟨by simp only [nextBuf, List.length_map, List.length_range]; omega, ?_⟩
  intro r hr
  simp only [nextBuf, List.mem_map] at hr
  obtain ⟨i, _, rfl⟩ := hr
  simp only [List.length_map, List.length_range]
  omega

theorem cellAt_nextBuf {nx ny : Int} (cw : World) {nw : World} (hn : Dim nx ny nw) (i j : Int) :
    cellAt (nextBuf nx ny cw nw) i j =
      if Interior nx ny i j then newCell cw i j else cellAt nw i j := by
  unfold nextBuf
  rw [cellAt_table]
  by_cases hr : 0 ≤ i ∧ i < nx ∧ 0 ≤ j ∧ j < ny
  · have ei : ((i.toNat : Nat) : Int) = i := by omega
    have ej : ((j.toNat : Nat) : Int) = j := by omega
    rw [if_pos (by omega), ei, ej]
  · have h1 : ¬ Interior nx ny i j := by unfold Interior; omega
    rw [if_neg (by omega), if_neg h1, cellAt_of_not_inRange hn i j hr]

theorem updatePhase_eq (W : Int) (hW : 1 ≤ W) (s : State) (hs : Allocated s) :
    updatePhase W s = some (updPure s) := by
  obtain ⟨nw, h1, h2, h3⟩ := updatePhase_spec W hW s hs
  obtain ⟨hnx, hny, hc, hn⟩ := hs
  have e : nw = nextBuf s.nx s.ny s.currWorld s.nextWorld := by
    apply world_ext h2 (Dim_nextBuf _ _ (by omega) (by omega) _ _)
    intro i j
    rw [h3 i j, cellAt_nextBuf _ hn]
  rw [h1, e]
  rfl

theorem generation_eq (W : Int) (hW : 1 ≤ W) (s : State) (hs : Allocated s) :
    generation W s = some (genPure s) := by
  simp [generation, updatePhase_eq W hW s hs, genPure]

theorem Allocated_genPure (s : State) (hs : Allocated s) : Allocated (genPure s) := by
  obtain ⟨hnx, hny, hc, hn⟩ := hs
  exact ⟨hnx, hny, Dim_nextBuf s.nx s.ny (by omega) (by omega) _ _, hc⟩

theorem Allocated_iterate (s : State) (hs : Allocated s) (k : Nat) :
    Allocated (genPure^[k] s) := by
  induction k with
  | zero => exact hs
  | succ k ih => rw [Function.iterate_succ_apply']; exact Allocated_genPure _ ih

theorem generations_eq (W : Int) (hW : 1 ≤ W) (s : State) (hs : Allocated s) (k : Nat) :
    generations W k s = some (genPure^[k] s) := by
  induction k with
  | zero => rfl
  | succ k ih =>
    rw [generations, ih, Option.some_bind, Function.iterate_succ_apply',
      generation_eq W hW _ (Allocated_iterate s hs k)]

theorem genPure_Inv (s : State) (h : Inv s) :
    Inv (genPure s) ∧ (genPure s).currWorld = lifeStep s.nx s.ny s.currWorld := by
  obtain ⟨hs, hb, hbc, hbn⟩ := h
  have ha := Allocated_genPure s hs
  obtain ⟨hnx, hny, hc, hn⟩ := hs
  have hcell : ∀ i j, cellAt (genPure s).currWorld i j =
      if Interior s.nx s.ny i j then lifeCell s.currWorld i j else 0 := by
    intro i j
    show cellAt (nextBuf s.nx s.ny s.currWorld s.nextWorld) i j = _
    rw [cellAt_nextBuf _ hn, newCell_eq_lifeCell hb]
    split_ifs with h1
    · rfl
    · exact hbn i j h1
  refine ⟨⟨ha, ?_, ?_, ?_⟩, ?_⟩
  · intro i j
    rw [hcell i j]
    split_ifs
    · rw [← newCell_eq_lifeCell hb]
      exact rule_binary _ _
    · left; rfl
  · intro i j h1
    have h1' : ¬ Interior s.nx s.ny i j := h1
    rw [hcell i j, if_neg h1']
  · intro i j h1
    exact hbc i j h1
  · apply world_ext ha.2.2.1 (Dim_lifeStep s.nx s.ny (by omega) (by omega) _)
    intro i j
    rw [hcell i j, cellAt_lifeStep]

theorem iterate_genPure_Inv (s : State) (h : Inv s) (k : Nat) :
    Inv (genPure^[k] s) ∧ (genPure^[k] s).nx = s.nx ∧ (genPure^[k] s).ny = s.ny ∧
      (genPure^[k] s).currWorld = (lifeStep s.nx s.ny)^[k] s.currWorld := by
  induction k with
  | zero => exact ⟨h, rfl, rfl, rfl⟩
  | succ k ih =>
    obtain ⟨h1, h2, h3, h4⟩ := ih
    obtain ⟨g1, g2⟩ := genPure_Inv _ h1
    rw [Function.iterate_succ_apply', Function.iterate_succ_apply']
    refine ⟨g1, ?_, ?_, ?_⟩
    · exact h2
    · exact h3
    · rw [g2, h2, h3, h4]

theorem Inv_of (s : State) (hs : Allocated s) (hb : Binary s.currWorld)
    (hbc : BorderDead s.nx s.ny s.currWorld) (hbn : BorderDead s.nx s.ny s.nextWorld) :
    Inv s :=
  ⟨hs, Binary_cellAt hb, BorderDead_cellAt hs.2.2.1 hbc, BorderDead_cellAt hs.2.2.2 hbn⟩

/-! ## The rule and the generation loop -/

/-- C1: for a current buffer of 0/1 cells, the value the update phase of a generation
stores at an interior cell is 1 exactly when the cell is alive with neighbour sum 2 or 3,
or dead with neighbour sum 3, and 0 otherwise; two runs (any worker counts, any next
buffers) whose current buffers agree on the cell and its eight neighbours store the same
value there. -/
theorem interior_cell_follows_rule (W : Int) (hW : 1 ≤ W) (s : State) (hs : Allocated s)
    (hb : Binary s.currWorld) :
    ∃ s', updatePhase W s = some s' ∧
      ∀ i j, Interior s.nx s.ny i j →
        cellAt s'.nextWorld i j =
          (if (cellAt s.currWorld i j = 1 ∧
                (nnAt s.currWorld i j = 2 ∨ nnAt s.currWorld i j = 3)) ∨
              (cellAt s.currWorld i j = 0 ∧ nnAt s.currWorld i j = 3) then 1 else 0) ∧
        ∀ (W2 : Int) (s2 s2' : State), 1 ≤ W2 → Allocated s2 → s2.nx = s.nx → s2.ny = s.ny →
          (∀ di dj : Int, -1 ≤ di → di ≤ 1 → -1 ≤ dj → dj ≤ 1 →
            cellAt s2.currWorld (i + di) (j + dj) = cellAt s.currWorld (i + di) (j + dj)) →
          updatePhase W2 s2 = some s2' → cellAt s2'.nextWorld i j = cellAt s'.nextWorld i j := by
  refine ⟨updPure s, updatePhase_eq W hW s hs, ?_⟩
  intro i j hij
  have hcell : cellAt (updPure s).nextWorld i j = newCell s.currWorld i j := by
    show cellAt (nextBuf s.nx s.ny s.currWorld s.nextWorld) i j = _
    rw [cellAt_nextBuf _ hs.2.2.2, if_pos hij]
  constructor
  · rw [hcell]
    unfold newCell rule
    rcases Binary_cellAt hb i j with h | h
    · simp [h]
    · simp [h]
  · intro W2 s2 s2' hW2 hs2 e1 e2 hag h2
    rw [updatePhase_eq W2 hW2 s2 hs2] at h2
    cases h2
    rw [hcell]
    show cellAt (nextBuf s2.nx s2.ny s2.currWorld s2.nextWorld) i j = _
    rw [cellAt_nextBuf _ hs2.2.2.2, e1, e2, if_pos hij]
    unfold newCell nnAt
    have a0 := hag 0 0 (by omega) (by omega) (by omega) (by omega)
    have a1 := hag 1 0 (by omega) (by omega) (by omega) (by omega)
    have a2 := hag (-1) 0 (by omega) (by omega) (by omega) (by omega)
    have a3 := hag 0 1 (by omega) (by omega) (by omega) (by omega)
    have a4 := hag 0 (-1) (by omega) (by omega) (by omega) (by omega)
    have a5 := hag 1 1 (by omega) (by omega) (by omega) (by omega)
    have a6 := hag (-1) (-1) (by omega) (by omega) (by omega) (by omega)
    have a7 := hag (-1) 1 (by omega) (by omega) (by omega) (by omega)
    have a8 := hag 1 (-1) (by omega) (by omega) (by omega) (by omega)
    simp only [add_zero, ← sub_eq_add_neg] at a0 a1 a2 a3 a4 a5 a6 a7 a8
    rw [a0, a1, a2, a3, a4, a5, a6, a7, a8]

/-- C1 instantiated on the 4 by 4 demonstration board with one worker. -/
theorem interior_cell_follows_rule_witness :
    (1 : Int) ≤ 1 ∧ Allocated demoState ∧ Binary demoState.currWorld ∧
    ∃ s', updatePhase 1 demoState = some s' ∧
      ∀ i j, Interior demoState.nx demoState.ny i j →
        cellAt s'.nextWorld i j =
          (if (cellAt demoState.currWorld i j = 1 ∧
                (nnAt demoState.currWorld i j = 2 ∨ nnAt demoState.currWorld i j = 3)) ∨
              (cellAt demoState.currWorld i j = 0 ∧ nnAt demoState.currWorld i j = 3)
            then 1 else 0) ∧
        ∀ (W2 : Int) (s2 s2' : State), 1 ≤ W2 → Allocated s2 → s2.nx = demoState.nx →
          s2.ny = demoState.ny →
          (∀ di dj : Int, -1 ≤ di → di ≤ 1 → -1 ≤ dj → dj ≤ 1 →
            cellAt s2.currWorld (i + di) (j + dj) = cellAt demoState.currWorld (i + di) (j + dj)) →
          updatePhase W2 s2 = some s2' → cellAt s2'.nextWorld i j = cellAt s'.nextWorld i j :=
  ⟨by decide, by decide, by decide,
    interior_cell_follows_rule 1 (by decide) demoState (by decide) (by decide)⟩

/-- C2: from a state whose current buffer holds 0/1 cells and whose ghost border is dead in
both buffers, for every worker count `W ≥ 1` and every `k`, `k` generation steps succeed and
leave as current buffer the `k`-fold iterate of the reference step on the initial current
buffer. -/
theorem generations_refine_lifeStep (W : Int) (hW : 1 ≤ W) (s : State) (hs : Allocated s)
    (hb : Binary s.currWorld) (hbc : BorderDead s.nx s.ny s.currWorld)
    (hbn : BorderDead s.nx s.ny s.nextWorld) (k : Nat) :
    ∃ s', generations W k s = some s' ∧
      s'.currWorld = (lifeStep s.nx s.ny)^[k] s.currWorld :=
  ⟨genPure^[k] s, generations_eq W hW s hs k,
    (iterate_genPure_Inv s (Inv_of s hs hb hbc hbn) k).2.2.2⟩

/-- C2 instantiated on the demonstration board, three workers, two generations. -/
theorem generations_refine_lifeStep_witness :
    (1 : Int) ≤ 3 ∧ Allocated demoState ∧ Binary demoState.currWorld ∧
    BorderDead demoState.nx demoState.ny demoState.currWorld ∧
    BorderDead demoState.nx demoState.ny demoState.nextWorld ∧
    ∃ s', generations 3 2 demoState = some s' ∧
      s'.currWorld = (lifeStep demoState.nx demoState.ny)^[2] demoState.currWorld :=
  ⟨by decide, by decide, by decide, by decide, by decide,
    generations_refine_lifeStep 3 (by decide) demoState (by decide) (by decide) (by decide)
      (by decide) 2⟩

/-! ## Row splitting -/

theorem Tiles_bounds : ∀ (l : List RowRange) (a b : Int), Tiles a b l →
    ∀ r ∈ l, a ≤ r.start ∧ r.start ≤ r.end_ ∧ r.end_ < b := by
  intro l
  induction l with
  | nil => intro a b _ r hr; simp at hr
  | cons x xs ih =>
    intro a b h r hr
    obtain ⟨h1, h2, h3⟩ := h
    have h4 := Tiles_le _ _ _ h3
    rcases List.mem_cons.1 hr with e | e
    · subst e; omega
    · have := ih _ _ h3 r e
      omega

theorem Tiles_head : ∀ (l : List RowRange) (a b : Int), Tiles a b l → a < b →
    l.head?.map RowRange.start = some a := by
  intro l a b h hab
  cases l with
  | nil => simp only [Tiles] at h; omega
  | cons x xs => simp [h.1]

theorem Tiles_last : ∀ (l : List RowRange) (a b : Int), Tiles a b l → a < b →
    l.getLast?.map RowRange.end_ = some (b - 1) := by
  intro l
  induction l with
  | nil => intro a b h hab; simp only [Tiles] at h; omega
  | cons x xs ih =>
    intro a b h hab
    obtain ⟨h1, h2, h3⟩ := h
    cases xs with
    | nil =>
      simp only [Tiles] at h3
      simp only [List.getLast?_singleton, Option.map_some', Option.some.injEq]
      omega
    | cons y ys =>
      have hlt : x.end_ + 1 < b := by
        have := Tiles_bounds _ _ _ h3 y (List.mem_cons_self _ _)
        omega
      have := ih _ _ h3 hlt
      rw [List.getLast?_cons_cons]
      exact this

theorem Tiles_chain : ∀ (l : List RowRange) (a b : Int), Tiles a b l →
    List.Chain' (fun x y => y.start = x.end_ + 1) l := by
  intro l
  induction l with
  | nil => intro a b _; exact List.chain'_nil
  | cons x xs ih =>
    intro a b h
    obtain ⟨h1, h2, h3⟩ := h
    cases xs with
    | nil => exact List.chain'_singleton _
    | cons y ys =>
      exact List.Chain'.cons h3.1 (ih _ _ h3)

theorem Tiles_pairwise : ∀ (l : List RowRange) (a b : Int), Tiles a b l →
    List.Pairwise (fun x y => x.end_ < y.start) l := by
  intro l
  induction l with
  | nil => intro a b _; exact List.Pairwise.nil
  | cons x xs ih =>
    intro a b h
    obtain ⟨h1, h2, h3⟩ := h
    refine List.Pairwise.cons ?_ (ih _ _ h3)
    intro y hy
    have := Tiles_bounds _ _ _ h3 y hy
    omega

theorem Tiles_cover : ∀ (l : List RowRange) (a b : Int), Tiles a b l →
    ∀ row : Int, (a ≤ row ∧ row < b) ↔ ∃ r ∈ l, r.start ≤ row ∧ row ≤ r.end_ := by
  intro l
  induction l with
  | nil =>
    intro a b h row
    simp only [Tiles] at h
    constructor
    · intro h1; omega
    · rintro ⟨r, hr, _⟩; simp at hr
  | cons x xs ih =>
    intro a b h row
    obtain ⟨h1, h2, h3⟩ := h
    have h4 := Tiles_le _ _ _ h3
    have := ih _ _ h3 row
    constructor
    · intro hrow
      by_cases hx : row ≤ x.end_
      · exact ⟨x, List.mem_cons_self _ _, by omega, hx⟩
      · obtain ⟨r, hr, hr2⟩ := this.1 (by omega)
        exact ⟨r, List.mem_cons_of_mem _ hr, hr2⟩
    · rintro ⟨r, hr, hr2⟩
      rcases List.mem_cons.1 hr with e | e
      · subst e; omega
      · have := this.2 ⟨r, e, hr2⟩
        omega

/-- C3: for `interior_rows ≥ 1` and `W ≥ 1` the non-empty row ranges, in spawn order, are
closed non-empty intervals; the first starts at row 1, each next one starts at the previous
end + 1, the last ends at `interior_rows`; they are increasing and pairwise disjoint and their
union is exactly the rows `1 .. interior_rows`. -/
theorem rowRanges_partition (interior_rows W : Int) (hR : 1 ≤ interior_rows) (hW : 1 ≤ W) :
    (∀ r ∈ spawned (rowRanges interior_rows W), r.start ≤ r.end_) ∧
    (spawned (rowRanges interior_rows W)).head?.map RowRange.start = some 1 ∧
    (spawned (rowRanges interior_rows W)).getLast?.map RowRange.end_ = some interior_rows ∧
    List.Chain' (fun x y => y.start = x.end_ + 1) (spawned (rowRanges interior_rows W)) ∧
    List.Pairwise (fun x y => x.end_ < y.start) (spawned (rowRanges interior_rows W)) ∧
    ∀ row : Int, (1 ≤ row ∧ row ≤ interior_rows) ↔
      ∃ r ∈ spawned (rowRanges interior_rows W), r.start ≤ row ∧ row ≤ r.end_ := by
  have ht := Tiles_rowRanges interior_rows W (by omega) hW
  refine ⟨fun r hr => (Tiles_bounds _ _ _ ht r hr).2.1, Tiles_head _ _ _ ht (by omega), ?_,
    Tiles_chain _ _ _ ht, Tiles_pairwise _ _ _ ht, ?_⟩
  · have := Tiles_last _ _ _ ht (by omega)
    rw [show interior_rows + 1 - 1 = interior_rows by ring] at this
    exact this
  · intro row
    rw [← Tiles_cover _ _ _ ht row]
    omega

/-- C3 instantiated for 10 interior rows and 3 workers. -/
theorem rowRanges_partition_witness :
    (1 : Int) ≤ 10 ∧ (1 : Int) ≤ 3 ∧
    (∀ r ∈ spawned (rowRanges 10 3), r.start ≤ r.end_) ∧
    (spawned (rowRanges 10 3)).head?.map RowRange.start = some 1 ∧
    (spawned (rowRanges 10 3)).getLast?.map RowRange.end_ = some 10 ∧
    List.Chain' (fun x y => y.start = x.end_ + 1) (spawned (rowRanges 10 3)) ∧
    List.Pairwise (fun x y => x.end_ < y.start) (spawned (rowRanges 10 3)) ∧
    ∀ row : Int, (1 ≤ row ∧ row ≤ 10) ↔
      ∃ r ∈ spawned (rowRanges 10 3), r.start ≤ row ∧ row ≤ r.end_ :=
  ⟨by decide, by decide, rowRanges_partition 10 3 (by decide) (by decide)⟩

theorem rowRanges_my_rows (R W : Int) (hR : 0 ≤ R) (hW : 1 ≤ W) (w : Nat)
    (h : w < (rowRanges R W).length) :
    ((rowRanges R W)[w]).my_rows = R / W + (if (w : Int) < R % W then 1 else 0) := by
  unfold rowRanges at h ⊢
  rw [splitLoop_my_rows, Int.tdiv_eq_ediv hR (by omega), Int.tmod_eq_emod hR (by omega),
    zero_add]

/-- C4: for `interior_rows ≥ 1` and `W ≥ 1` the splitting loop computes exactly `W` ranges;
range `w` has `interior_rows / W + (1 if w < interior_rows mod W else 0)` rows and ends at
`start + my_rows - 1`; two sizes differ by at most 1; a range is empty only if
`W > interior_rows`, and then exactly the ranges `w ≥ interior_rows` are empty; a task is
spawned for a range exactly when it is non-empty. -/
theorem rowRanges_balanced (interior_rows W : Int) (hR : 1 ≤ interior_rows) (hW : 1 ≤ W) :
    ((rowRanges interior_rows W).length : Int) = W ∧
    (∀ (w : Nat) (h : w < (rowRanges interior_rows W).length),
      ((rowRanges interior_rows W)[w]).my_rows =
        interior_rows / W + (if (w : Int) < interior_rows % W then 1 else 0)) ∧
    (∀ r ∈ rowRanges interior_rows W, r.end_ = r.start + r.my_rows - 1) ∧
    (∀ r1 ∈ rowRanges interior_rows W, ∀ r2 ∈ rowRanges interior_rows W,
      r1.my_rows - r2.my_rows ≤ 1) ∧
    (∀ r ∈ rowRanges interior_rows W, r.my_rows ≤ 0 → interior_rows < W) ∧
    (interior_rows < W → ∀ (w : Nat) (h : w < (rowRanges interior_rows W).length),
      (((rowRanges interior_rows W)[w]).my_rows ≤ 0 ↔ interior_rows ≤ w)) ∧
    (∀ r ∈ rowRanges interior_rows W,
      r ∈ spawned (rowRanges interior_rows W) ↔ 0 < r.my_rows) := by
  have hlen : (rowRanges interior_rows W).length = W.toNat := splitLoop_length _ _ _ _ _
  have hmod0 : 0 ≤ interior_rows % W := Int.emod_nonneg _ (by omega)
  have hmodlt : interior_rows % W < W := Int.emod_lt_of_pos _ (by omega)
  have hdiv0 : 0 ≤ interior_rows / W := Int.ediv_nonneg (by omega) (by omega)
  have hsz : ∀ r ∈ rowRanges interior_rows W,
      r.my_rows = interior_rows / W ∨ r.my_rows = interior_rows / W + 1 := by
    intro r hr
    obtain ⟨w, hw, rfl⟩ := List.getElem_of_mem hr
    rw [rowRanges_my_rows interior_rows W (by omega) hW w hw]
    split_ifs
    · right; rfl
    · left; omega
  refine ⟨by omega, fun w h => rowRanges_my_rows interior_rows W (by omega) hW w h,
    splitLoop_end _ _ _ _ _, ?_, ?_, ?_, ?_⟩
  · intro r1 h1 r2 h2
    have a := hsz r1 h1
    have b := hsz r2 h2
    omega
  · intro r hr h0
    have a := hsz r hr
    have hd : interior_rows / W = 0 := by omega
    by_contra hcon
    have : 1 ≤ interior_rows / W := by
      rw [Int.le_ediv_iff_mul_le (by omega)]
      omega
    omega
  · intro hlt w h
    rw [rowRanges_my_rows interior_rows W (by omega) hW w h]
    have hd : interior_rows / W = 0 := Int.ediv_eq_zero_of_lt (by omega) hlt
    have hm : interior_rows % W = interior_rows := Int.emod_eq_of_lt (by omega) hlt
    rw [hd, hm]
    split_ifs <;> omega
  · intro r _
    unfold spawned
    simp only [List.mem_filter, decide_eq_true_eq, not_le]
    tauto

/-- C4 instantiated for 3 interior rows and 5 workers. -/
theorem rowRanges_balanced_witness :
    (1 : Int) ≤ 3 ∧ (1 : Int) ≤ 5 ∧
    ((rowRanges 3 5).length : Int) = 5 ∧
    (∀ (w : Nat) (h : w < (rowRanges 3 5).length),
      ((rowRanges 3 5)[w]).my_rows = 3 / 5 + (if (w : Int) < 3 % 5 then 1 else 0)) ∧
    (∀ r ∈ rowRanges 3 5, r.end_ = r.start + r.my_rows - 1) ∧
    (∀ r1 ∈ rowRanges 3 5, ∀ r2 ∈ rowRanges 3 5, r1.my_rows - r2.my_rows ≤ 1) ∧
    (∀ r ∈ rowRanges 3 5, r.my_rows ≤ 0 → (3 : Int) < 5) ∧
    ((3 : Int) < 5 → ∀ (w : Nat) (h : w < (rowRanges 3 5).length),
      (((rowRanges 3 5)[w]).my_rows ≤ 0 ↔ (3 : Int) ≤ w)) ∧
    (∀ r ∈ rowRanges 3 5, r ∈ spawned (rowRanges 3 5) ↔ 0 < r.my_rows) :=
  ⟨by decide, by decide, rowRanges_balanced 3 5 (by decide) (by decide)⟩

theorem single_thread_counter_eq_recount (s : State) (hs : Allocated s) :
    (∃ s', updatePhase 1 s = some s' ∧ s'.pop_update = recount s.nx s.ny s'.nextWorld) ∧
    (∃ s', generation 1 s = some s' ∧ s'.pop_update = recount s.nx s.ny s'.currWorld) :=
  ⟨⟨updPure s, updatePhase_eq 1 (le_refl 1) s hs, rfl⟩,
    ⟨genPure s, generation_eq 1 (le_refl 1) s hs, rfl⟩⟩

/-! ## Tasks run in any order -/

theorem mem_interiorCells (nx ny : Int) (p : Int × Int) :
    p ∈ interiorCells nx ny ↔ Interior nx ny p.1 p.2 := by
  obtain ⟨i, j⟩ := p
  simp only [interiorCells, List.mem_flatMap, List.mem_map, List.mem_range'_1, Prod.mk.injEq,
    Interior]
  constructor
  · rintro ⟨a, ha, b, hb, rfl, rfl⟩
    omega
  · intro h
    exact ⟨i.toNat, by omega, j.toNat, by omega, by omega, by omega⟩

theorem nodup_interiorCells (nx ny : Int) : (interiorCells nx ny).Nodup := by
  unfold interiorCells
  rw [List.nodup_flatMap]
  constructor
  · intro a _
    apply List.Nodup.map _ (List.nodup_range' _ _)
    intro x y h
    simp only [Prod.mk.injEq, Nat.cast_inj, true_and] at h
    exact h
  · apply List.Pairwise.imp _ (List.nodup_range' 1 (nx - 2).toNat)
    intro a b hab
    simp only [Function.onFun]
    rw [List.disjoint_left]
    intro p h1 h2
    simp only [List.mem_map] at h1 h2
    obtain ⟨x, _, rfl⟩ := h1
    obtain ⟨y, _, h⟩ := h2
    simp only [Prod.mk.injEq, Nat.cast_inj] at h
    exact hab h.1.symm

theorem runTask_spec {nx ny : Int} (hny : 2 ≤ ny) (r : RowRange) (s : State) (hs : s.ny = ny)
    (hc : Dim nx ny s.currWorld) (hn : Dim nx ny s.nextWorld)
    (h1 : 1 ≤ r.start) (h2 : r.start ≤ r.end_ + 1) (h3 : r.end_ ≤ nx - 2) :
    ∃ nw, runTask r s = some { s with
        nextWorld := nw,
        pop_update := s.pop_update +
          countRows (newCell s.currWorld) (ny - 2).toNat (r.end_ - r.start + 1).toNat r.start,
        writes := s.writes ++ rowCells (ny - 2).toNat (r.end_ - r.start + 1).toNat r.start } ∧
      Dim nx ny nw ∧
      ∀ i j, cellAt nw i j =
        if r.start ≤ i ∧ i ≤ r.end_ ∧ 1 ≤ j ∧ j ≤ ny - 2 then newCell s.currWorld i j
        else cellAt s.nextWorld i j := by
  obtain ⟨nw, g1, g2, g3⟩ := @rowLoop_spec nx ny hny (r.end_ - r.start + 1).toNat r.start s hs
    hc hn h1 (by omega)
  refine ⟨nw, g1, g2, ?_⟩
  intro i j
  rw [g3 i j]
  have e : (((r.end_ - r.start + 1).toNat : Nat) : Int) = r.end_ - r.start + 1 := by omega
  rw [e]
  split_ifs with a b b
  · rfl
  · omega
  · omega
  · rfl

theorem runTasks_spec {nx ny : Int} (hny : 2 ≤ ny) : ∀ (l : List RowRange) (s : State),
    s.ny = ny → Dim nx ny s.currWorld → Dim nx ny s.nextWorld →
    (∀ r ∈ l, 1 ≤ r.start ∧ r.start ≤ r.end_ + 1 ∧ r.end_ ≤ nx - 2) →
    ∃ nw, runTasks l s = some { s with
        nextWorld := nw,
        pop_update := s.pop_update + (l.map (fun r =>
          countRows (newCell s.currWorld) (ny - 2).toNat
            (r.end_ - r.start + 1).toNat r.start)).sum,
        writes := s.writes ++ l.flatMap (fun r =>
          rowCells (ny - 2).toNat (r.end_ - r.start + 1).toNat r.start) } ∧
      Dim nx ny nw ∧
      (∀ i j, (∃ r ∈ l, r.start ≤ i ∧ i ≤ r.end_) → 1 ≤ j → j ≤ ny - 2 →
        cellAt nw i j = newCell s.currWorld i j) ∧
      (∀ i j, ¬ ((∃ r ∈ l, r.start ≤ i ∧ i ≤ r.end_) ∧ 1 ≤ j ∧ j ≤ ny - 2) →
        cellAt nw i j = cellAt s.nextWorld i j) := by
  intro l
  induction l with
  | nil =>
    intro s _ _ hn _
    refine ⟨s.nextWorld, by simp [runTasks], hn, ?_, ?_⟩
    · rintro i j ⟨r, hr, _⟩; simp at hr
    · intro i j _; rfl
  | cons r rs ih =>
    intro s hs hc hn hv
    obtain ⟨v1, v2, v3⟩ := hv r (List.mem_cons_self _ _)
    obtain ⟨nw1, g1, g2, g3⟩ := runTask_spec hny r s hs hc hn v1 v2 v3
    obtain ⟨nw, k1, k2, k3, k4⟩ := ih
      { s with
        nextWorld := nw1,
        pop_update := s.pop_update +
          countRows (newCell s.currWorld) (ny - 2).toNat (r.end_ - r.start + 1).toNat r.start,
        writes := s.writes ++ rowCells (ny - 2).toNat (r.end_ - r.start + 1).toNat r.start }
      hs hc g2 (fun x hx => hv x (List.mem_cons_of_mem _ hx))
    dsimp only at k1 k3 k4
    refine ⟨nw, ?_, k2, ?_, ?_⟩
    · rw [runTasks, g1, Option.some_bind, k1]
      simp only [List.map_cons, List.sum_cons, List.flatMap_cons, add_assoc, List.append_assoc]
    · intro i j hex hj1 hj2
      by_cases hrs : ∃ x ∈ rs, x.start ≤ i ∧ i ≤ x.end_
      · exact k3 i j hrs hj1 hj2
      · rw [k4 i j (fun h => hrs h.1), g3 i j]
        obtain ⟨x, hx, hx2⟩ := hex
        rcases List.mem_cons.1 hx with e | e
        · subst e
          rw [if_pos ⟨hx2.1, hx2.2, hj1, hj2⟩]
        · exact absurd ⟨x, e, hx2⟩ hrs
    · intro i j hno
      have hrs : ¬ ((∃ x ∈ rs, x.start ≤ i ∧ i ≤ x.end_) ∧ 1 ≤ j ∧ j ≤ ny - 2) := by
        rintro ⟨⟨x, hx, hx2⟩, hj⟩
        exact hno ⟨⟨x, List.mem_cons_of_mem _ hx, hx2⟩, hj⟩
      rw [k4 i j hrs, g3 i j, if_neg]
      rintro ⟨a, b, c⟩
      exact hno ⟨⟨r, List.mem_cons_self _ _, a, b⟩, c⟩

/-- C15: for every allocated state with at least one interior row and every worker count
`W ≥ 1`, running the spawned row-range tasks one after another in any order succeeds and
leaves the same next buffer and the same population counter as the update phase with one
worker, which is a single update loop over the interior rows `1 .. interior_rows`. -/
theorem task_order_irrelevant (W : Int) (hW : 1 ≤ W) (s : State) (hs : Allocated s)
    (hR : 1 ≤ s.nx - 2) (l : List RowRange)
    (hp : l.Perm (spawned (rowRanges (s.nx - 2) W))) :
    updatePhase 1 s = rowLoop (s.nx - 2).toNat 1 { s with pop_update := 0 } ∧
    ∃ s1 s2, runTasks l { s with pop_update := 0 } = some s1 ∧ updatePhase 1 s = some s2 ∧
      s1.nextWorld = s2.nextWorld ∧ s1.pop_update = s2.pop_update ∧
      s1.currWorld = s2.currWorld := by
  have hs' := hs
  obtain ⟨hnx, hny, hc, hn⟩ := hs'
  have ht := Tiles_rowRanges (s.nx - 2) W (by omega) hW
  have ht1 := Tiles_rowRanges (s.nx - 2) 1 (by omega) (le_refl 1)
  constructor
  · unfold updatePhase
    rw [runTasks_Tiles _ _ _ _ ht1, show s.nx - 2 + 1 - 1 = s.nx - 2 by ring]
  have hv : ∀ r ∈ spawned (rowRanges (s.nx - 2) W),
      1 ≤ r.start ∧ r.start ≤ r.end_ + 1 ∧ r.end_ ≤ s.nx - 2 := by
    intro r hr
    have := Tiles_bounds _ _ _ ht r hr
    omega
  have hv' : ∀ r ∈ l, 1 ≤ r.start ∧ r.start ≤ r.end_ + 1 ∧ r.end_ ≤ s.nx - 2 :=
    fun r hr => hv r (hp.mem_iff.1 hr)
  obtain ⟨nw, g1, g2, g3, g4⟩ := @runTasks_spec s.nx s.ny hny l { s with pop_update := 0 } rfl
    hc hn hv'
  obtain ⟨nw0, k1, k2, k3, k4⟩ := @runTasks_spec s.nx s.ny hny
    (spawned (rowRanges (s.nx - 2) W)) { s with pop_update := 0 } rfl hc hn hv
  dsimp only at g1 g3 g4 k1 k3 k4
  have hW1 := updatePhase_eq W hW s hs
  unfold updatePhase at hW1
  rw [hW1] at k1
  have hpop := congrArg State.pop_update (Option.some.inj k1)
  dsimp only at hpop
  refine ⟨_, updPure s, g1, updatePhase_eq 1 (le_refl 1) s hs, ?_, ?_, rfl⟩
  · show nw = nextBuf s.nx s.ny s.currWorld s.nextWorld
    apply world_ext g2 (Dim_nextBuf s.nx s.ny (by omega) (by omega) _ _)
    intro i j
    rw [cellAt_nextBuf _ hn]
    by_cases hij : Interior s.nx s.ny i j
    · rw [if_pos hij]
      have hij' := hij
      unfold Interior at hij'
      obtain ⟨r, hr, hr2⟩ := (Tiles_cover _ _ _ ht i).1 (by omega)
      exact g3 i j ⟨r, hp.mem_iff.2 hr, hr2⟩ hij'.2.2.1 hij'.2.2.2
    · rw [if_neg hij]
      apply g4
      rintro ⟨⟨r, hr, hr2⟩, hj⟩
      apply hij
      have := hv' r hr
      unfold Interior
      omega
  · show (0 : Int) + _ = (updPure s).pop_update
    rw [hpop]
    congr 1
    exact (hp.map _).sum_eq

/-- C15 instantiated on the demonstration board: two workers, tasks run in reverse order. -/
theorem task_order_irrelevant_witness :
    (1 : Int) ≤ 2 ∧ Allocated demoState ∧ 1 ≤ demoState.nx - 2 ∧
    (spawned (rowRanges (demoState.nx - 2) 2)).reverse.Perm
      (spawned (rowRanges (demoState.nx - 2) 2)) ∧
    updatePhase 1 demoState =
      rowLoop (demoState.nx - 2).toNat 1 { demoState with pop_update := 0 } ∧
    ∃ s1 s2, runTasks (spawned (rowRanges (demoState.nx - 2) 2)).reverse
        { demoState with pop_update := 0 } = some s1 ∧
      updatePhase 1 demoState = some s2 ∧
      s1.nextWorld = s2.nextWorld ∧ s1.pop_update = s2.pop_update ∧
      s1.currWorld = s2.currWorld :=
  ⟨by decide, by decide, by decide, List.reverse_perm _,
    task_order_irrelevant 2 (by decide) demoState (by decide) (by decide) _
      (List.reverse_perm _)⟩

/-- C16: on an allocated grid with `nx ≥ 3` and `ny ≥ 3` and for `W ≥ 1`, every scheduled
row range satisfies `1 ≤ start ≤ end ≤ nx - 2`; the update phase returns a state, so no read
or store took the out-of-bounds branch; every cell visited by the update loops is an
interior cell, and at an interior cell the nine reads of the current buffer and the store
to a buffer of the allocated size are inside the allocation. -/
theorem update_in_bounds (W : Int) (hW : 1 ≤ W) (s : State) (hs : Allocated s)
    (hnx : 3 ≤ s.nx) (_hny : 3 ≤ s.ny) :
    (∀ r ∈ spawned (rowRanges (s.nx - 2) W),
      1 ≤ r.start ∧ r.start ≤ r.end_ ∧ r.end_ ≤ s.nx - 2) ∧
    (∃ s', updatePhase W s = some s' ∧
      ∃ ws, s'.writes = s.writes ++ ws ∧
        ∀ p ∈ ws, 1 ≤ p.1 ∧ p.1 ≤ s.nx - 2 ∧ 1 ≤ p.2 ∧ p.2 ≤ s.ny - 2) ∧
    (∀ ii jj : Int, 1 ≤ ii → ii ≤ s.nx - 2 → 1 ≤ jj → jj ≤ s.ny - 2 →
      (∀ di dj : Int, -1 ≤ di → di ≤ 1 → -1 ≤ dj → dj ≤ 1 →
        (rd s.currWorld (ii + di) (jj + dj)).isSome) ∧
      ∀ (m : World) (v : Int), Dim s.nx s.ny m → (wr m ii jj v).isSome) := by
  have ht := Tiles_rowRanges (s.nx - 2) W (by omega) hW
  refine ⟨?_, ⟨updPure s, updatePhase_eq W hW s hs, interiorCells s.nx s.ny, rfl, ?_⟩, ?_⟩
  · intro r hr
    have := Tiles_bounds _ _ _ ht r hr
    omega
  · intro p hp
    exact (mem_interiorCells s.nx s.ny p).1 hp
  · intro ii jj h1 h2 h3 h4
    constructor
    · intro di dj a b c d
      rw [rd_eq_some hs.2.2.1 (by omega) (by omega) (by omega) (by omega)]
      rfl
    · intro m v hm
      rw [wr_eq_some hm v (by omega) (by omega) (by omega) (by omega)]
      rfl

/-- C16 instantiated on the demonstration board with three workers. -/
theorem update_in_bounds_witness :
    (1 : Int) ≤ 3 ∧ Allocated demoState ∧ 3 ≤ demoState.nx ∧ 3 ≤ demoState.ny ∧
    (∀ r ∈ spawned (rowRanges (demoState.nx - 2) 3),
      1 ≤ r.start ∧ r.start ≤ r.end_ ∧ r.end_ ≤ demoState.nx - 2) ∧
    (∃ s', updatePhase 3 demoState = some s' ∧
      ∃ ws, s'.writes = demoState.writes ++ ws ∧
        ∀ p ∈ ws, 1 ≤ p.1 ∧ p.1 ≤ demoState.nx - 2 ∧ 1 ≤ p.2 ∧ p.2 ≤ demoState.ny - 2) ∧
    (∀ ii jj : Int, 1 ≤ ii → ii ≤ demoState.nx - 2 → 1 ≤ jj → jj ≤ demoState.ny - 2 →
      (∀ di dj : Int, -1 ≤ di → di ≤ 1 → -1 ≤ dj → dj ≤ 1 →
        (rd demoState.currWorld (ii + di) (jj + dj)).isSome) ∧
      ∀ (m : World) (v : Int), Dim demoState.nx demoState.ny m → (wr m ii jj v).isSome) :=
  ⟨by decide, by decide, by decide, by decide,
    update_in_bounds 3 (by decide) demoState (by decide) (by decide) (by decide)⟩

/-- C17: for every allocated pair of buffers and every `W ≥ 1` the update phase (before the
swap) succeeds, leaves the current buffer unchanged and leaves every non-interior cell of
the next buffer unchanged; the cells it stores to are exactly the interior cells of the
next buffer, each stored to exactly once (the log of stores has no duplicate). -/
theorem update_frame (W : Int) (hW : 1 ≤ W) (s : State) (hs : Allocated s) :
    ∃ s', updatePhase W s = some s' ∧ s'.currWorld = s.currWorld ∧
      (∀ i j, ¬ Interior s.nx s.ny i j → cellAt s'.nextWorld i j = cellAt s.nextWorld i j) ∧
      ∃ ws, s'.writes = s.writes ++ ws ∧
        (∀ p ∈ ws, Interior s.nx s.ny p.1 p.2) ∧
        ws.Nodup ∧ (∀ i j, Interior s.nx s.ny i j → (i, j) ∈ ws) := by
  refine ⟨updPure s, updatePhase_eq W hW s hs, rfl, ?_, interiorCells s.nx s.ny, rfl, ?_,
    nodup_interiorCells s.nx s.ny, ?_⟩
  · intro i j hij
    show cellAt (nextBuf s.nx s.ny s.currWorld s.nextWorld) i j = _
    rw [cellAt_nextBuf _ hs.2.2.2, if_neg hij]
  · intro p hp
    exact (mem_interiorCells s.nx s.ny p).1 hp
  · intro i j hij
    exact (mem_interiorCells s.nx s.ny (i, j)).2 hij

/-- C17 instantiated on the demonstration board with two workers. -/
theorem update_frame_witness :
    (1 : Int) ≤ 2 ∧ Allocated demoState ∧
    ∃ s', updatePhase 2 demoState = some s' ∧ s'.currWorld = demoState.currWorld ∧
      (∀ i j, ¬ Interior demoState.nx demoState.ny i j →
        cellAt s'.nextWorld i j = cellAt demoState.nextWorld i j) ∧
      ∃ ws, s'.writes = demoState.writes ++ ws ∧
        (∀ p ∈ ws, Interior demoState.nx demoState.ny p.1 p.2) ∧
        ws.Nodup ∧ (∀ i j, Interior demoState.nx demoState.ny i j → (i, j) ∈ ws) :=
  ⟨by decide, by decide, update_frame 2 (by decide) demoState (by decide)⟩

/-! ## Boards as functions, the generation loop -/

theorem recount_eq_countFn (nx ny : Int) (m : World) :
    recount nx ny m = countFn nx ny (cellAt m) := by
  simp [recount, aliveCells, countFn, List.countP_eq_length_filter]

theorem countFn_congr (nx ny : Int) (f g : Int → Int → Int)
    (h : ∀ i j, Interior nx ny i j → f i j = g i j) : countFn nx ny f = countFn nx ny g := by
  unfold countFn
  congr 1
  apply List.countP_congr
  intro p hp
  rw [h p.1 p.2 ((mem_interiorCells nx ny p).1 hp)]

theorem cellAt_zeroWorld (nx ny i j : Int) : cellAt (zeroWorld nx ny) i j = 0 := by
  unfold cellAt rd zeroWorld
  by_cases h0 : 0 ≤ i ∧ 0 ≤ j
  · rw [if_pos h0]
    by_cases h1 : i.toNat < nx.toNat
    · by_cases h2 : j.toNat < ny.toNat
      · simp [List.getElem?_replicate, h1, h2]
      · simp [List.getElem?_replicate, h1, h2]
    · simp [List.getElem?_replicate, h1]
  · rw [if_neg h0]; rfl

theorem Dim_zeroWorld (nx ny : Int) (hnx : 0 ≤ nx) (hny : 0 ≤ ny) :
    Dim nx ny (zeroWorld nx ny) := by
  refine ⟨by simp only [zeroWorld, List.length_replicate]; omega, ?_⟩
  intro r hr
  rw [List.eq_of_mem_replicate hr, List.length_replicate]
  omega

theorem genPure_nx (s : State) (k : Nat) :
    (genPure^[k] s).nx = s.nx ∧ (genPure^[k] s).ny = s.ny ∧
      (genPure^[k] s).pop_plot = s.pop_plot ∧ (genPure^[k] s).maxiter = s.maxiter := by
  induction k with
  | zero => exact ⟨rfl, rfl, rfl, rfl⟩
  | succ k ih =>
    rw [Function.iterate_succ_apply']
    exact ih

theorem evolve_spec (s : State) (hs : Allocated s) (k : Nat) :
    cellAt (genPure^[k] s).currWorld =
        (evolve s.nx s.ny (cellAt s.currWorld) (cellAt s.nextWorld) k).1 ∧
      cellAt (genPure^[k] s).nextWorld =
        (evolve s.nx s.ny (cellAt s.currWorld) (cellAt s.nextWorld) k).2 := by
  induction k with
  | zero => exact ⟨rfl, rfl⟩
  | succ k ih =>
    obtain ⟨h1, h2⟩ := ih
    obtain ⟨e1, e2, _, _⟩ := genPure_nx s k
    have ha := Allocated_iterate s hs k
    rw [Function.iterate_succ_apply']
    constructor
    · funext i j
      show cellAt (nextBuf _ _ _ _) i j = _
      rw [cellAt_nextBuf _ ha.2.2.2, e1, e2]
      simp only [evolve, stepFn, ← h1, ← h2]
      rfl
    · exact h1

theorem genPure_setT (s : State) (x : Int) (k : Nat) :
    genPure^[k] { s with t := x } = { genPure^[k] s with t := x } := by
  induction k with
  | zero => rfl
  | succ k ih =>
    rw [Function.iterate_succ_apply', Function.iterate_succ_apply', ih]
    rfl

theorem simLoop_of_pop_zero (W : Int) (fuel : Nat) (s : State) (h : s.pop_plot = 0) :
    simLoop W fuel s = some s := by
  cases fuel with
  | zero => simp [simLoop, h]
  | succ k => simp [simLoop, h]

theorem simLoop_of_pop_ne_zero (W : Int) (hW : 1 ≤ W) : ∀ (fuel : Nat) (s : State),
    Allocated s → s.pop_plot ≠ 0 → s.t + fuel = s.maxiter →
    simLoop W fuel s = some { genPure^[fuel] s with t := s.maxiter } := by
  intro fuel
  induction fuel with
  | zero =>
    intro s _ _ ht
    have : ¬ (s.t < s.maxiter ∧ s.pop_plot ≠ 0) := by push_cast at ht; omega
    simp only [simLoop, if_neg this, Function.iterate_zero, id_eq]
    cases s
    simp only [Nat.cast_zero, add_zero] at ht
    simp only [Option.some.injEq, State.mk.injEq, true_and, and_true]
    exact ht
  | succ k ih =>
    intro s hs hp ht
    push_cast at ht
    have hc : s.t < s.maxiter ∧ s.pop_plot ≠ 0 := ⟨by omega, hp⟩
    have hs1 : Allocated { genPure s with t := (genPure s).t + 1 } := Allocated_genPure s hs
    have := ih { genPure s with t := (genPure s).t + 1 } hs1 hp
      (by show s.t + 1 + (k : Int) = s.maxiter; omega)
    rw [simLoop, if_pos hc, generation_eq W hW s hs, Option.some_bind, this, genPure_setT,
      Function.iterate_succ_apply]
    rfl

/-! ## Seeding -/

theorem seedCols_const {nx ny : Int} (rnd : Nat → ℚ) (prob : ℚ) (b : Int)
    (hv : ∀ c, (if rnd c < prob then (1 : Int) else 0) = b) (i : Int) (hi0 : 0 ≤ i)
    (hi : i < nx) : ∀ (k : Nat) (j : Int) (s : State), Dim nx ny s.currWorld →
      0 ≤ j → j + k ≤ ny →
      ∃ cw, seedCols rnd prob i k j s = some { s with
          currWorld := cw, pop_plot := s.pop_plot + k * b, rcalls := s.rcalls + k } ∧
        Dim nx ny cw ∧
        ∀ a c, cellAt cw a c =
          if a = i ∧ j ≤ c ∧ c < j + k then b else cellAt s.currWorld a c := by
  intro k
  induction k with
  | zero =>
    intro j s hc _ _
    refine ⟨s.currWorld, by simp [seedCols], hc, ?_⟩
    intro a c
    rw [if_neg]
    push_cast
    omega
  | succ k ih =>
    intro j s hc hj0 hj
    push_cast at hj
    have hw := wr_eq_some hc (i := i) (j := j) b hi0 hi hj0 (by omega)
    have hx := cellAt_setCell hc (i := i) (j := j) b hi0 hi hj0 (by omega) i j
    simp only [and_self, if_true] at hx
    have hr := rd_eq_some (Dim_setCell hc i j b) (i := i) (j := j) hi0 hi hj0 (by omega)
    rw [hx] at hr
    obtain ⟨cw, h1, h2, h3⟩ := ih (j + 1)
      { s with currWorld := setCell s.currWorld i j b, pop_plot := s.pop_plot + b,
               rcalls := s.rcalls + 1 }
      (Dim_setCell hc _ _ _) (by omega) (by omega)
    dsimp only at h1 h3
    refine ⟨cw, ?_, h2, ?_⟩
    · rw [seedCols, hv, hw, Option.some_bind, hr, Option.some_bind, h1]
      push_cast
      simp only [add_mul, one_mul, add_assoc, add_comm (k : Int) 1, Nat.add_assoc,
        Nat.add_comm k 1, add_comm (↑k * b) b]
    · intro a c
      rw [h3 a c, cellAt_setCell hc _ hi0 hi hj0 (by omega)]
      push_cast
      split_ifs with p q r u v
      · rfl
      · omega
      · rfl
      · omega
      · omega
      · rfl

theorem seedRows_const {nx ny : Int} (hny : 2 ≤ ny) (rnd : Nat → ℚ) (prob : ℚ) (b : Int)
    (hv : ∀ c, (if rnd c < prob then (1 : Int) else 0) = b) :
    ∀ (k : Nat) (i : Int) (s : State), s.ny = ny → Dim nx ny s.currWorld →
      1 ≤ i → i + k ≤ nx - 1 →
      ∃ cw, seedRows rnd prob k i s = some { s with
          currWorld := cw, pop_plot := s.pop_plot + k * ((ny - 2) * b),
          rcalls := s.rcalls + k * (ny - 2).toNat } ∧
        Dim nx ny cw ∧
        ∀ a c, cellAt cw a c =
          if i ≤ a ∧ a < i + k ∧ 1 ≤ c ∧ c ≤ ny - 2 then b else cellAt s.currWorld a c := by
  intro k
  induction k with
  | zero =>
    intro i s _ hc _ _
    refine ⟨s.currWorld, by simp [seedRows], hc, ?_⟩
    intro a c
    rw [if_neg]
    push_cast
    omega
  | succ k ih =>
    intro i s hs hc hi0 hi
    subst hs
    push_cast at hi
    obtain ⟨cw1, g1, g2, g3⟩ := @seedCols_const nx s.ny rnd prob b hv i (by omega) (by omega)
      (s.ny - 2).toNat 1 s hc (by omega) (by omega)
    obtain ⟨cw, h1, h2, h3⟩ := ih (i + 1)
      { s with currWorld := cw1, pop_plot := s.pop_plot + ((s.ny - 2).toNat : Int) * b,
               rcalls := s.rcalls + (s.ny - 2).toNat }
      rfl g2 (by omega) (by omega)
    dsimp only at h1 h3
    have e : ((s.ny - 2).toNat : Int) = s.ny - 2 := by omega
    refine ⟨cw, ?_, h2, ?_⟩
    · rw [seedRows, g1, Option.some_bind, h1, e]
      push_cast
      congr 2
      · ring
      · ring
    · intro a c
      rw [h3 a c, g3 a c, e]
      push_cast
      split_ifs with p q r u v
      · rfl
      · omega
      · obtain ⟨rfl, _⟩ := r
        rfl
      · omega
      · omega
      · rfl

theorem seed_game0_const (rnd : Nat → ℚ) (prob : ℚ) (b : Int)
    (hv : ∀ c, (if rnd c < prob then (1 : Int) else 0) = b) (n maxiter : Int) (hn : 0 ≤ n) :
    ∃ cw, seed rnd prob 0 (initState n maxiter) = some { initState n maxiter with
        currWorld := cw, pop_plot := n * (100 * b), rcalls := n.toNat * 100 } ∧
      Dim (n + 2) 102 cw ∧
      ∀ i j, cellAt cw i j = if Interior (n + 2) 102 i j then b else 0 := by
  obtain ⟨cw, h1, h2, h3⟩ := @seedRows_const (n + 2) 102 (by omega) rnd prob b hv
    (n + 2 - 2).toNat 1 { initState n maxiter with pop_plot := 0 } rfl
    (Dim_zeroWorld (n + 2) 102 (by omega) (by omega)) (by omega) (by omega)
  dsimp only at h1 h3
  refine ⟨cw, ?_, h2, ?_⟩
  · have e : ((n + 2 - 2).toNat : Int) = n := by omega
    have e' : (n + 2 - 2).toNat = n.toNat := by omega
    simp only [seed, if_true]
    show seedRows rnd prob (n + 2 - 2).toNat 1 { initState n maxiter with pop_plot := 0 } = _
    rw [h1, e]
    simp only [initState, e']
    norm_num
    exact Or.inl rfl
  · intro i j
    rw [h3 i j]
    have e : ((n + 2 - 2).toNat : Int) = n := by omega
    rw [e]
    show _ = if Interior (n + 2) 102 i j then b else 0
    unfold Interior
    simp only [initState, cellAt_zeroWorld]
    split_ifs with p q q
    · rfl
    · omega
    · omega
    · rfl

/-! ## The hard-coded patterns on small grids -/

theorem cellAt_setCell_fn {nx ny : Int} {m : World} (hm : Dim nx ny m) {i j : Int} (v : Int)
    (hi0 : 0 ≤ i) (hi : i < nx) (hj0 : 0 ≤ j) (hj : j < ny) :
    cellAt (setCell m i j v) = setFn (cellAt m) i j v := by
  funext a b
  exact cellAt_setCell hm v hi0 hi hj0 hj a b

theorem cellAt_zeroWorld_fn (nx ny : Int) : cellAt (zeroWorld nx ny) = deadFn := by
  funext a b
  exact cellAt_zeroWorld nx ny a b

theorem seed_game2 (rnd : Nat → ℚ) (prob : ℚ) (n maxiter : Int) (cx cy : Int)
    (hcx : Int.tdiv (n + 2) 2 = cx) (hcy : Int.tdiv (100 + 2) 2 = cy)
    (h1 : 0 ≤ cx) (h2 : cx + 2 < n + 2) (h3 : 0 ≤ cy) (h4 : cy + 2 < 102) :
    seed rnd prob 2 (initState n maxiter) = some { initState n maxiter with
        currWorld := gliderWorld (n + 2) (100 + 2) cx cy, pop_plot := 5 } ∧
      Dim (n + 2) 102 (gliderWorld (n + 2) (100 + 2) cx cy) ∧
      cellAt (gliderWorld (n + 2) (100 + 2) cx cy) = gliderFn cx cy := by
  have d0 : Dim (n + 2) 102 (zeroWorld (n + 2) (100 + 2)) :=
    Dim_zeroWorld (n + 2) 102 (by omega) (by omega)
  have d1 := Dim_setCell d0 cx (cy + 1) 1
  have d2 := Dim_setCell d1 (cx + 1) (cy + 2) 1
  have d3 := Dim_setCell d2 (cx + 2) (cy + 2) 1
  have d4 := Dim_setCell d3 (cx + 2) (cy + 1) 1
  have d5 := Dim_setCell d4 (cx + 2) cy 1
  have w1 := wr_eq_some d0 (i := cx) (j := cy + 1) 1 (by omega) (by omega) (by omega) (by omega)
  have w2 := wr_eq_some d1 (i := cx + 1) (j := cy + 2) 1 (by omega) (by omega) (by omega)
    (by omega)
  have w3 := wr_eq_some d2 (i := cx + 2) (j := cy + 2) 1 (by omega) (by omega) (by omega)
    (by omega)
  have w4 := wr_eq_some d3 (i := cx + 2) (j := cy + 1) 1 (by omega) (by omega) (by omega)
    (by omega)
  have w5 := wr_eq_some d4 (i := cx + 2) (j := cy) 1 (by omega) (by omega) (by omega)
    (by omega)
  refine ⟨?_, d5, ?_⟩
  · simp only [seed, initState, setAlive, hcx, hcy, w1, w2, w3, w4, w5, Option.map_some',
      Option.some_bind, gliderWorld]
    rfl
  · unfold gliderWorld gliderFn
    rw [cellAt_setCell_fn d4 1 (by omega) (by omega) (by omega) (by omega),
      cellAt_setCell_fn d3 1 (by omega) (by omega) (by omega) (by omega),
      cellAt_setCell_fn d2 1 (by omega) (by omega) (by omega) (by omega),
      cellAt_setCell_fn d1 1 (by omega) (by omega) (by omega) (by omega),
      cellAt_setCell_fn d0 1 (by omega) (by omega) (by omega) (by omega),
      cellAt_zeroWorld_fn]

/-- The state seeded by `-n 3 -g 2`. -/
theorem seed_glider3 (rnd : Nat → ℚ) (prob : ℚ) (maxiter : Int) :
    seed rnd prob 2 (initState 3 maxiter) = some { initState 3 maxiter with
        currWorld := gliderWorld (3 + 2) (100 + 2) 2 51, pop_plot := 5 } ∧
      Dim (3 + 2) 102 (gliderWorld (3 + 2) (100 + 2) 2 51) ∧
      cellAt (gliderWorld (3 + 2) (100 + 2) 2 51) = gliderFn 2 51 :=
  seed_game2 rnd prob 3 maxiter 2 51 (by decide) (by decide) (by decide) (by decide)
    (by decide) (by decide)

theorem glider3_ghost_cell : gliderFn 2 51 4 52 = 1 := by decide

theorem glider3_alive_interior : countFn 5 102 (gliderFn 2 51) = 2 := by decide!

theorem glider3_population_after_two :
    countFn 5 102 (evolve 5 102 (gliderFn 2 51) deadFn 2).1 = 0 := by decide!

theorem glider3_cell_after_three : (evolve 5 102 (gliderFn 2 51) deadFn 3).1 3 52 = 1 := by
  decide!

theorem glider3_reference_after_three :
    cellAt ((lifeStep 5 102)^[3] (gliderWorld 5 102 2 51)) 3 52 = 0 := by decide!

theorem full4_population_after_two :
    countFn 4 102 (evolve 4 102 (fullFn 4 102) deadFn 2).1 = 0 := by decide!

theorem full12_population_after_one :
    countFn 12 102 (stepFn 12 102 (fullFn 12 102) deadFn) = 4 := by decide!

theorem full12_corners :
    stepFn 12 102 (fullFn 12 102) deadFn 1 1 = 1 ∧
    stepFn 12 102 (fullFn 12 102) deadFn 1 100 = 1 ∧
    stepFn 12 102 (fullFn 12 102) deadFn 10 1 = 1 ∧
    stepFn 12 102 (fullFn 12 102) deadFn 10 100 = 1 := by decide

/-! ## Termination test, ghost border and recorded population -/

theorem seeded_full (rnd : Nat → ℚ) (b : Int) (prob : ℚ)
    (hv : ∀ c, (if rnd c < prob then (1 : Int) else 0) = b) (n maxiter : Int) (hn : 0 ≤ n) :
    ∃ s, seed rnd prob 0 (initState n maxiter) = some s ∧ Allocated s ∧
      s.nx = n + 2 ∧ s.ny = 102 ∧ s.maxiter = maxiter ∧ s.t = 0 ∧ s.writes = [] ∧
      s.pop_update = 0 ∧ s.pop_plot = n * (100 * b) ∧
      cellAt s.nextWorld = deadFn ∧ s.nextWorld = zeroWorld (n + 2) 102 ∧
      (∀ i j, cellAt s.currWorld i j = if Interior (n + 2) 102 i j then b else 0) := by
  obtain ⟨cw, h1, h2, h3⟩ := seed_game0_const rnd prob b hv n maxiter hn
  refine ⟨_, h1, ⟨?_, ?_, h2, ?_⟩, rfl, rfl, rfl, rfl, rfl, rfl, rfl, ?_, rfl, h3⟩
  · show 2 ≤ n + 2
    omega
  · show (2 : Int) ≤ 100 + 2
    omega
  · exact Dim_zeroWorld (n + 2) 102 (by omega) (by omega)
  · exact cellAt_zeroWorld_fn (n + 2) 102

theorem full_board_first_generation (rnd : Nat → ℚ) (hr : ∀ c, rnd c < 1) (maxiter : Int) :
    ∃ s s', seed rnd 1 0 (initState 10 maxiter) = some s ∧
      (∀ i j, cellAt s.currWorld i j = if Interior 12 102 i j then 1 else 0) ∧
      generation 1 s = some s' ∧ s'.pop_update = 4 ∧
      cellAt s'.currWorld 1 1 = 1 ∧ cellAt s'.currWorld 1 100 = 1 ∧
      cellAt s'.currWorld 10 1 = 1 ∧ cellAt s'.currWorld 10 100 = 1 := by
  obtain ⟨s, h1, h2, h3, h4, _, _, _, _, _, h5, _, h6⟩ :=
    seeded_full rnd 1 1 (fun c => by simp [hr c]) 10 maxiter (by omega)
  have e3 : s.nx = 12 := by rw [h3]; norm_num
  have hf : cellAt s.currWorld = fullFn 12 102 := by
    funext i j
    rw [h6 i j]
    norm_num [fullFn]
  have hcur : cellAt (genPure s).currWorld = stepFn 12 102 (fullFn 12 102) deadFn := by
    have := (evolve_spec s h2 1).1
    rw [Function.iterate_one] at this
    rw [this, e3, h4, hf, h5]
    rfl
  refine ⟨s, genPure s, h1, ?_, generation_eq 1 (le_refl 1) s h2, ?_, ?_⟩
  · intro i j
    rw [h6 i j]
    norm_num
  · show recount s.nx s.ny (genPure s).currWorld = 4
    rw [recount_eq_countFn, hcur, e3, h4]
    exact full12_population_after_one
  · rw [hcur]
    exact full12_corners

/-- C6 (the code at the input `-n 2 -p 1 -i 3`, one thread): every cell of the 2 by 100
interior is seeded alive; the current buffer has no alive interior cell after 2 generations,
yet the loop, which tests the seeding count `population[w_plot]`, executes all 3
generations. -/
theorem loop_runs_past_extinction (rnd : Nat → ℚ) (hr : ∀ c, rnd c < 1) :
    ∃ s0 s2 sf, seed rnd 1 0 (initState 2 3) = some s0 ∧
      generations 1 2 s0 = some s2 ∧ recount s2.nx s2.ny s2.currWorld = 0 ∧
      run rnd 1 0 2 3 1 = some sf ∧ sf.t = 3 := by
  obtain ⟨s, h1, h2, h3, h4, hm, ht, _, _, hp, h5, _, h6⟩ :=
    seeded_full rnd 1 1 (fun c => by simp [hr c]) 2 3 (by omega)
  have e3 : s.nx = 4 := by rw [h3]; norm_num
  have hf : cellAt s.currWorld = fullFn 4 102 := by
    funext i j
    rw [h6 i j]
    norm_num [fullFn]
  obtain ⟨g1, g2, _, _⟩ := genPure_nx s 2
  have hs0 : Allocated { s with t := 0 } := h2
  have hrun := simLoop_of_pop_ne_zero 1 (le_refl 1) 3 { s with t := 0 } hs0
    (by show s.pop_plot ≠ 0; rw [hp]; norm_num) (by show (0 : Int) + (3 : Nat) = s.maxiter; rw [hm]; norm_num)
  have hpop : recount (genPure^[2] s).nx (genPure^[2] s).ny (genPure^[2] s).currWorld = 0 := by
    rw [recount_eq_countFn, (evolve_spec s h2 2).1, g1, g2, e3, h4, hf, h5]
    exact full4_population_after_two
  have hrun' := hrun
  rw [← show run rnd 1 0 2 3 1 = simLoop 1 3 { s with t := 0 } by
    unfold run; rw [h1, Option.some_bind]; rfl] at hrun'
  exact ⟨s, genPure^[2] s, _, h1, generations_eq 1 (le_refl 1) s h2 2, hpop, hrun', hm⟩

/-- C6 at the constant random stream 0. -/
theorem loop_runs_past_extinction_witness :
    (∀ c : Nat, (fun _ => (0 : ℚ)) c < 1) ∧
    ∃ s0 s2 sf, seed (fun _ => 0) 1 0 (initState 2 3) = some s0 ∧
      generations 1 2 s0 = some s2 ∧ recount s2.nx s2.ny s2.currWorld = 0 ∧
      run (fun _ => 0) 1 0 2 3 1 = some sf ∧ sf.t = 3 :=
  ⟨fun _ => by norm_num, loop_runs_past_extinction (fun _ => 0) (fun _ => by norm_num)⟩

/-- C7 (the code at the input `-n 3 -g 2`): seeding succeeds and stores 1 into the cell
`(4, 52)` of the ghost row `nx - 1 = 4`, so the ghost border of the current buffer is not
dead after seeding; at the input `-n 1 -g 2` a seeding store falls outside the allocation. -/
theorem glider_seed_writes_ghost_row (rnd : Nat → ℚ) (prob : ℚ) (maxiter : Int) :
    (∃ s, seed rnd prob 2 (initState 3 maxiter) = some s ∧ s.nx - 1 = 4 ∧
      cellAt s.currWorld 4 52 = 1 ∧ ¬ BorderDead s.nx s.ny s.currWorld) ∧
    seed rnd prob 2 (initState 1 maxiter) = none := by
  refine ⟨?_, rfl⟩
  obtain ⟨h1, h2, h3⟩ := seed_glider3 rnd prob maxiter
  have hc : cellAt (gliderWorld (3 + 2) (100 + 2) 2 51) 4 52 = 1 := by
    rw [h3]; exact glider3_ghost_cell
  refine ⟨_, h1, by show (3 : Int) + 2 - 1 = 4; norm_num, hc, ?_⟩
  intro hb
  have := hb 4 (by simp [initState]) 52 (by simp [initState])
    (Or.inr (Or.inl (by simp [initState])))
  rw [show ((4 : Nat) : Int) = 4 by rfl, show ((52 : Nat) : Int) = 52 by rfl] at this
  change cellAt (gliderWorld (3 + 2) (100 + 2) 2 51) 4 52 = 0 at this
  rw [hc] at this
  exact absurd this (by decide)

/-- C8 (the code at the input `-n 3 -g 2`): seeding records the population 5 while the
current buffer has 2 alive interior cells. -/
theorem glider_seed_population_mismatch (rnd : Nat → ℚ) (prob : ℚ) (maxiter : Int) :
    ∃ s, seed rnd prob 2 (initState 3 maxiter) = some s ∧ s.pop_plot = 5 ∧
      recount s.nx s.ny s.currWorld = 2 := by
  obtain ⟨h1, h2, h3⟩ := seed_glider3 rnd prob maxiter
  refine ⟨_, h1, rfl, ?_⟩
  show recount (3 + 2) (100 + 2) (gliderWorld (3 + 2) (100 + 2) 2 51) = 2
  rw [recount_eq_countFn, h3]
  exact glider3_alive_interior

/-- C10 (the code at the input `-n 3 -g 2 -i 4`, one thread): the loop executes 4
generations; after 3 generations the interior cell `(3, 52)` of the current buffer is alive,
while it is dead in the third iterate of the reference step on the seeded buffer. -/
theorem glider3_diverges_from_reference (rnd : Nat → ℚ) (prob : ℚ) :
    ∃ s0 s3 sf, seed rnd prob 2 (initState 3 4) = some s0 ∧
      generations 1 3 s0 = some s3 ∧ cellAt s3.currWorld 3 52 = 1 ∧
      cellAt ((lifeStep s0.nx s0.ny)^[3] s0.currWorld) 3 52 = 0 ∧
      run rnd prob 2 3 4 1 = some sf ∧ sf.t = 4 := by
  obtain ⟨h1, h2, h3⟩ := seed_glider3 rnd prob 4
  have hs : Allocated { initState 3 4 with
      currWorld := gliderWorld (3 + 2) (100 + 2) 2 51, pop_plot := 5 } :=
    ⟨by decide, by decide, h2, Dim_zeroWorld (3 + 2) 102 (by decide) (by decide)⟩
  have hrun := simLoop_of_pop_ne_zero 1 (le_refl 1) 4 _ hs (by decide) (by decide)
  have hcell : cellAt (genPure^[3] { initState 3 4 with
      currWorld := gliderWorld (3 + 2) (100 + 2) 2 51, pop_plot := 5 }).currWorld 3 52 = 1 := by
    rw [(evolve_spec _ hs 3).1]
    show (evolve (3 + 2) (100 + 2) (cellAt (gliderWorld (3 + 2) (100 + 2) 2 51))
      (cellAt (zeroWorld (3 + 2) (100 + 2))) 3).1 3 52 = 1
    rw [h3, cellAt_zeroWorld_fn]
    exact glider3_cell_after_three
  have hrun' := hrun
  rw [← show run rnd prob 2 3 4 1 = simLoop 1 4 { initState 3 4 with
      currWorld := gliderWorld (3 + 2) (100 + 2) 2 51, pop_plot := 5 } by
    unfold run; rw [h1, Option.some_bind]; rfl] at hrun'
  exact ⟨_, _, _, h1, generations_eq 1 (le_refl 1) _ hs 3, hcell,
    glider3_reference_after_three, hrun', rfl⟩

/-! ## Degenerate probabilities and the command line -/

/-- C12 (amended): with option `-n 10`, probability 1.0 and one worker thread, for every
random stream with values in [0, 1), seeding makes every interior cell alive with a dead
ghost border, and the first generation counts the population 4: the four corner cells of the
10 by 100 interior stay alive. -/
theorem full_board_keeps_corners (rnd : Nat → ℚ) (hr : ∀ c, 0 ≤ rnd c ∧ rnd c < 1)
    (maxiter : Int) :
    ∃ s s', seed rnd 1 0 (initState 10 maxiter) = some s ∧
      (∀ i j, cellAt s.currWorld i j = if Interior 12 102 i j then 1 else 0) ∧
      generation 1 s = some s' ∧ s'.pop_update = 4 ∧
      cellAt s'.currWorld 1 1 = 1 ∧ cellAt s'.currWorld 1 100 = 1 ∧
      cellAt s'.currWorld 10 1 = 1 ∧ cellAt s'.currWorld 10 100 = 1 :=
  full_board_first_generation rnd (fun c => (hr c).2) maxiter

/-- C12 (amended) at the constant random stream 0 and 200 iterations. -/
theorem full_board_keeps_corners_witness :
    (∀ c : Nat, 0 ≤ (fun _ => (0 : ℚ)) c ∧ (fun _ => (0 : ℚ)) c < 1) ∧
    ∃ s s', seed (fun _ => 0) 1 0 (initState 10 200) = some s ∧
      (∀ i j, cellAt s.currWorld i j = if Interior 12 102 i j then 1 else 0) ∧
      generation 1 s = some s' ∧ s'.pop_update = 4 ∧
      cellAt s'.currWorld 1 1 = 1 ∧ cellAt s'.currWorld 1 100 = 1 ∧
      cellAt s'.currWorld 10 1 = 1 ∧ cellAt s'.currWorld 10 100 = 1 :=
  ⟨fun _ => by norm_num, full_board_keeps_corners (fun _ => 0) (fun _ => by norm_num) 200⟩

/-- C12 as stated fails: with `-n 10`, probability 1.0, one worker thread and the constant
random stream 0, the population counted by the first generation is not 0. -/
theorem full_board_population_not_zero :
    ∃ s s', seed (fun _ => 0) 1 0 (initState 10 200) = some s ∧
      generation 1 s = some s' ∧ s'.pop_update ≠ 0 := by
  obtain ⟨s, s', h1, _, h2, h3, _⟩ :=
    full_board_first_generation (fun _ => 0) (fun _ => by norm_num) 200
  exact ⟨s, s', h1, h2, by rw [h3]; decide⟩

/-- C13: with probability 0.0, for every grid size `n ≥ 1`, every `maxiter`, every worker
count and every random stream with values in [0, 1), seeding leaves every cell dead and
records the population 0, and the program reaches the end of the generation loop in the
seeded state: `t` is 0, no cell was stored to by a task, the population counter of the
update is untouched and the buffers are the seeded ones. -/
theorem zero_probability_no_generation (rnd : Nat → ℚ) (hr : ∀ c, 0 ≤ rnd c ∧ rnd c < 1)
    (n maxiter W : Int) (hn : 1 ≤ n) :
    ∃ s, seed rnd 0 0 (initState n maxiter) = some s ∧
      (∀ i j, cellAt s.currWorld i j = 0) ∧ s.pop_plot = 0 ∧
      run rnd 0 0 n maxiter W = some s ∧ s.t = 0 ∧ s.writes = [] ∧ s.pop_update = 0 ∧
      s.nextWorld = zeroWorld (n + 2) 102 := by
  obtain ⟨s, h1, h2, h3, h4, hm, ht, hw, hu, hp, h5, hz, h6⟩ :=
    seeded_full rnd 0 0 (fun c => by simp [not_lt.2 (hr c).1]) n maxiter (by omega)
  have hp0 : s.pop_plot = 0 := by rw [hp]; ring
  have hst : ({ s with t := 0 } : State) = s := by
    cases s
    simp only at ht
    simp only [State.mk.injEq, true_and, and_true]
    exact ht.symm
  refine ⟨s, h1, ?_, hp0, ?_, ht, hw, hu, hz⟩
  · intro i j
    rw [h6 i j]
    split_ifs <;> rfl
  · unfold run
    rw [h1, Option.some_bind, hst]
    exact simLoop_of_pop_zero W _ s hp0

/-- C13 on the grid of option `-n 10`, 200 iterations, one worker, constant stream 1/2. -/
theorem zero_probability_no_generation_witness :
    (∀ c : Nat, 0 ≤ (fun _ => (1 / 2 : ℚ)) c ∧ (fun _ => (1 / 2 : ℚ)) c < 1) ∧ (1 : Int) ≤ 10 ∧
    ∃ s, seed (fun _ => 1 / 2) 0 0 (initState 10 200) = some s ∧
      (∀ i j, cellAt s.currWorld i j = 0) ∧ s.pop_plot = 0 ∧
      run (fun _ => 1 / 2) 0 0 10 200 1 = some s ∧ s.t = 0 ∧ s.writes = [] ∧
      s.pop_update = 0 ∧ s.nextWorld = zeroWorld (10 + 2) 102 :=
  ⟨fun _ => by norm_num, by decide,
    zero_probability_no_generation (fun _ => 1 / 2) (fun _ => by norm_num) 10 200 1
      (by decide)⟩

/-- C14 (the code at the argument vector `life_openmp -n`): the option loop applies `atoi`
to `argv[argc]`, a null pointer, and prints no usage line; an unrecognised flag in flag
position does give the usage exit, and one that follows `-n` is taken as its value. -/
theorem missing_value_is_not_usage (cv : Conv) :
    parseCommandLine cv ["life_openmp", "-n"] = Parsed.nullArg ∧
    parseCommandLine cv ["life_openmp", "-n"] ≠ Parsed.usage ∧
    parseCommandLine cv ["life_openmp", "-x"] = Parsed.usage ∧
    parseCommandLine cv ["life_openmp", "-n", "-x"] =
      Parsed.done { defaultOptions with nx := cv.atoi "-x" } := by
  refine ⟨?_, ?_, ?_, ?_⟩ <;> simp [parseCommandLine, parseArgs]

/-! ## The four-cell block -/

theorem blockFn_eq_band (a b i j : Int) : blockFn a b i j = band a i * band b j := by
  unfold blockFn band
  split_ifs <;> first | rfl | omega

theorem band_cases (a i : Int) :
    (band a (i - 1) = 0 ∧ band a i = 0 ∧ band a (i + 1) = 0) ∨
    (band a (i - 1) = 0 ∧ band a i = 0 ∧ band a (i + 1) = 1) ∨
    (band a (i - 1) = 0 ∧ band a i = 1 ∧ band a (i + 1) = 1) ∨
    (band a (i - 1) = 1 ∧ band a i = 1 ∧ band a (i + 1) = 0) ∨
    (band a (i - 1) = 1 ∧ band a i = 0 ∧ band a (i + 1) = 0) := by
  unfold band
  split_ifs <;> omega

theorem newFn_blockFn (a b i j : Int) : newFn (blockFn a b) i j = blockFn a b i j := by
  unfold newFn nn8 rule
  simp only [blockFn_eq_band]
  rcases band_cases a i with ⟨h1, h2, h3⟩ | ⟨h1, h2, h3⟩ | ⟨h1, h2, h3⟩ | ⟨h1, h2, h3⟩ |
    ⟨h1, h2, h3⟩ <;>
  rcases band_cases b j with ⟨k1, k2, k3⟩ | ⟨k1, k2, k3⟩ | ⟨k1, k2, k3⟩ | ⟨k1, k2, k3⟩ |
    ⟨k1, k2, k3⟩ <;>
  simp only [h1, h2, h3, k1, k2, k3] <;> norm_num

theorem seed_game1 (rnd : Nat → ℚ) (prob : ℚ) (n maxiter : Int) (hn : 3 ≤ n) :
    seed rnd prob 1 (initState n maxiter) = some { initState n maxiter with
        currWorld := blockWorld (n + 2) (100 + 2) ((n + 2) / 2) 51, pop_plot := 4 } ∧
      Dim (n + 2) 102 (blockWorld (n + 2) (100 + 2) ((n + 2) / 2) 51) ∧
      cellAt (blockWorld (n + 2) (100 + 2) ((n + 2) / 2) 51) = blockFn ((n + 2) / 2) 51 := by
  have hcx : Int.tdiv (n + 2) 2 = (n + 2) / 2 := Int.tdiv_eq_ediv (by omega) (by omega)
  have hcy : Int.tdiv (100 + 2) 2 = 51 := by decide
  have d0 : Dim (n + 2) 102 (zeroWorld (n + 2) (100 + 2)) :=
    Dim_zeroWorld (n + 2) 102 (by omega) (by omega)
  have d1 := Dim_setCell d0 ((n + 2) / 2) 51 1
  have d2 := Dim_setCell d1 ((n + 2) / 2 + 1) 51 1
  have d3 := Dim_setCell d2 ((n + 2) / 2) (51 + 1) 1
  have d4 := Dim_setCell d3 ((n + 2) / 2 + 1) (51 + 1) 1
  have w1 := wr_eq_some d0 (i := (n + 2) / 2) (j := 51) 1 (by omega) (by omega) (by omega)
    (by omega)
  have w2 := wr_eq_some d1 (i := (n + 2) / 2 + 1) (j := 51) 1 (by omega) (by omega) (by omega)
    (by omega)
  have w3 := wr_eq_some d2 (i := (n + 2) / 2) (j := 51 + 1) 1 (by omega) (by omega) (by omega)
    (by omega)
  have w4 := wr_eq_some d3 (i := (n + 2) / 2 + 1) (j := 51 + 1) 1 (by omega) (by omega)
    (by omega) (by omega)
  refine ⟨?_, d4, ?_⟩
  · simp only [seed, initState, setAlive, hcx, hcy, w1, w2, w3, w4, Option.map_some',
      Option.some_bind, blockWorld]
    rfl
  · unfold blockWorld
    rw [cellAt_setCell_fn d3 1 (by omega) (by omega) (by omega) (by omega),
      cellAt_setCell_fn d2 1 (by omega) (by omega) (by omega) (by omega),
      cellAt_setCell_fn d1 1 (by omega) (by omega) (by omega) (by omega),
      cellAt_setCell_fn d0 1 (by omega) (by omega) (by omega) (by omega),
      cellAt_zeroWorld_fn]
    funext i j
    unfold setFn deadFn blockFn
    split_ifs <;> first | rfl | omega

theorem countFn_blockFn (nx ny a b : Int) (ha : 1 ≤ a) (ha' : a + 1 ≤ nx - 2) (hb : 1 ≤ b)
    (hb' : b + 1 ≤ ny - 2) : countFn nx ny (blockFn a b) = 4 := by
  unfold countFn
  rw [List.countP_eq_length_filter]
  have hperm : List.Perm ((interiorCells nx ny).filter (fun p => decide (blockFn a b p.1 p.2 ≠ 0)))
      [(a, b), (a, b + 1), (a + 1, b), (a + 1, b + 1)] := by
    rw [List.perm_ext_iff_of_nodup ((nodup_interiorCells nx ny).filter _)]
    · rintro ⟨i, j⟩
      simp only [List.mem_filter, mem_interiorCells, Interior, blockFn, decide_eq_true_eq,
        List.mem_cons, Prod.mk.injEq, List.mem_singleton, List.not_mem_nil, or_false]
      constructor
      · rintro ⟨_, h⟩
        split_ifs at h with c
        · omega
        · exact absurd rfl h
      · intro h
        refine ⟨by omega, ?_⟩
        rw [if_pos (by omega)]
        decide
    · simp only [List.nodup_cons, List.mem_cons, Prod.mk.injEq, List.mem_singleton,
        List.not_mem_nil, List.nodup_nil, not_or, not_false_eq_true, and_true]
      omega
  rw [hperm.length_eq]
  rfl

theorem block_still_life (s : State) (hs : Allocated s) (a : Int) (ha : 1 ≤ a)
    (ha' : a + 1 ≤ s.nx - 2) (hny : s.ny = 102) (hc : cellAt s.currWorld = blockFn a 51)
    (hn : ∀ i j, ¬ Interior s.nx s.ny i j → cellAt s.nextWorld i j = 0) (k : Nat) :
    Allocated (genPure^[k] s) ∧ (genPure^[k] s).currWorld = s.currWorld ∧
      (∀ i j, ¬ Interior s.nx s.ny i j → cellAt (genPure^[k] s).nextWorld i j = 0) ∧
      (1 ≤ k → (genPure^[k] s).pop_update = 4) := by
  have hout : ∀ i j, ¬ Interior s.nx s.ny i j → blockFn a 51 i j = 0 := by
    intro i j hij
    unfold Interior at hij
    unfold blockFn
    rw [if_neg]
    omega
  induction k with
  | zero => exact ⟨hs, rfl, hn, fun h => absurd h (by decide)⟩
  | succ k ih =>
    obtain ⟨h1, h2, h3, _⟩ := ih
    obtain ⟨e1, e2, _, _⟩ := genPure_nx s k
    rw [Function.iterate_succ_apply']
    have hcur : (genPure (genPure^[k] s)).currWorld = s.currWorld := by
      show nextBuf _ _ _ _ = _
      rw [e1, e2, h2]
      apply world_ext (Dim_nextBuf s.nx s.ny (by have := hs.1; omega) (by have := hs.2.1; omega)
        _ _) hs.2.2.1
      intro i j
      have hd : Dim s.nx s.ny (genPure^[k] s).nextWorld := by
        have := h1.2.2.2
        rw [e1, e2] at this
        exact this
      rw [cellAt_nextBuf _ hd]
      show (if Interior s.nx s.ny i j then newFn (cellAt s.currWorld) i j else _) = _
      rw [hc, newFn_blockFn]
      split_ifs with hij
      · rfl
      · rw [h3 i j hij, hout i j hij]
    refine ⟨Allocated_genPure _ h1, hcur, ?_, ?_⟩
    · intro i j hij
      show cellAt (genPure^[k] s).currWorld i j = 0
      rw [h2, hc]
      exact hout i j hij
    · intro _
      show recount (genPure^[k] s).nx (genPure^[k] s).ny (genPure (genPure^[k] s)).currWorld = 4
      rw [hcur, e1, e2, recount_eq_countFn, hc]
      exact countFn_blockFn s.nx s.ny a 51 ha ha' (by decide) (by rw [hny]; decide)

theorem block_fixed_point (rnd : Nat → ℚ) (prob : ℚ) (n maxiter W : Int) (hn : 3 ≤ n)
    (hW : 1 ≤ W) (k : Nat) :
    ∃ s0 sk, seed rnd prob 1 (initState n maxiter) = some s0 ∧
      (∀ i j, cellAt s0.currWorld i j =
        if (i = s0.nx / 2 ∨ i = s0.nx / 2 + 1) ∧ (j = 51 ∨ j = 51 + 1) then 1 else 0) ∧
      generations W k s0 = some sk ∧ sk.currWorld = s0.currWorld ∧
      (W = 1 → 1 ≤ k → sk.pop_update = 4) := by
  obtain ⟨h1, h2, h3⟩ := seed_game1 rnd prob n maxiter hn
  have hs : Allocated { initState n maxiter with
      currWorld := blockWorld (n + 2) (100 + 2) ((n + 2) / 2) 51, pop_plot := 4 } :=
    ⟨by show 2 ≤ n + 2; omega, by show (2 : Int) ≤ 100 + 2; decide, h2,
      Dim_zeroWorld (n + 2) 102 (by omega) (by omega)⟩
  obtain ⟨_, g2, _, g4⟩ := block_still_life _ hs ((n + 2) / 2)
    (by omega) (by show (n + 2) / 2 + 1 ≤ n + 2 - 2; omega) rfl h3
    (fun i j _ => cellAt_zeroWorld (n + 2) (100 + 2) i j) k
  refine ⟨_, _, h1, ?_, generations_eq W hW _ hs k, g2, fun _ => g4⟩
  intro i j
  show cellAt (blockWorld (n + 2) (100 + 2) ((n + 2) / 2) 51) i j = _
  rw [h3]
  rfl

/-! ## The population counter under a late reset -/

theorem runTeam_tasks_append : ∀ (l : List RowRange) (rest : List TeamStep) (s : State),
    runTeam (l.map TeamStep.task ++ rest) s = (runTasks l s).bind (runTeam rest) := by
  intro l
  induction l with
  | nil => intro rest s; rfl
  | cons r rs ih =>
    intro rest s
    simp only [List.map_cons, List.cons_append, runTeam, runTasks]
    cases h : runTask r s with
    | none => rfl
    | some s1 => simp only [Option.some_bind]; exact ih rest s1

theorem runTeam_late_reset {nx ny : Int} (hny : 2 ≤ ny) (l1 l2 : List RowRange) (s : State)
    (hs : s.ny = ny) (hc : Dim nx ny s.currWorld) (hn : Dim nx ny s.nextWorld)
    (hv1 : ∀ r ∈ l1, 1 ≤ r.start ∧ r.start ≤ r.end_ + 1 ∧ r.end_ ≤ nx - 2)
    (hv2 : ∀ r ∈ l2, 1 ≤ r.start ∧ r.start ≤ r.end_ + 1 ∧ r.end_ ≤ nx - 2) :
    ∃ s', runTeam (TeamStep.reset :: (l1.map TeamStep.task ++
        TeamStep.reset :: l2.map TeamStep.task)) s = some s' ∧
      s'.pop_update = (l2.map (fun r => countRows (newCell s.currWorld) (ny - 2).toNat
        (r.end_ - r.start + 1).toNat r.start)).sum ∧
      Dim nx ny s'.nextWorld ∧
      (∀ i j, (∃ r ∈ l1 ++ l2, r.start ≤ i ∧ i ≤ r.end_) → 1 ≤ j → j ≤ ny - 2 →
        cellAt s'.nextWorld i j = newCell s.currWorld i j) ∧
      (∀ i j, ¬ ((∃ r ∈ l1 ++ l2, r.start ≤ i ∧ i ≤ r.end_) ∧ 1 ≤ j ∧ j ≤ ny - 2) →
        cellAt s'.nextWorld i j = cellAt s.nextWorld i j) := by
  obtain ⟨nw1, g1, g2, g3, g4⟩ := @runTasks_spec nx ny hny l1 { s with pop_update := 0 } hs
    hc hn hv1
  dsimp only at g1 g3 g4
  obtain ⟨nw2, k1, k2, k3, k4⟩ := @runTasks_spec nx ny hny l2
    { s with
      nextWorld := nw1,
      pop_update := 0,
      writes := s.writes ++ l1.flatMap (fun r =>
        rowCells (ny - 2).toNat (r.end_ - r.start + 1).toNat r.start) }
    hs hc g2 hv2
  dsimp only at k1 k3 k4
  refine ⟨{ s with
      nextWorld := nw2,
      pop_update := 0 + (l2.map (fun r => countRows (newCell s.currWorld) (ny - 2).toNat
        (r.end_ - r.start + 1).toNat r.start)).sum,
      writes := s.writes ++ l1.flatMap (fun r =>
          rowCells (ny - 2).toNat (r.end_ - r.start + 1).toNat r.start) ++
        l2.flatMap (fun r =>
          rowCells (ny - 2).toNat (r.end_ - r.start + 1).toNat r.start) }, ?_, ?_, k2, ?_, ?_⟩
  · rw [runTeam, runTeam_tasks_append, g1, Option.some_bind, runTeam]
    have := runTeam_tasks_append l2 [] { s with
      nextWorld := nw1,
      pop_update := 0,
      writes := s.writes ++ l1.flatMap (fun r =>
        rowCells (ny - 2).toNat (r.end_ - r.start + 1).toNat r.start) }
    rw [List.append_nil] at this
    rw [this, k1]
    rfl
  · simp only [zero_add]
  · intro i j hex hj1 hj2
    by_cases h2 : ∃ r ∈ l2, r.start ≤ i ∧ i ≤ r.end_
    · exact k3 i j h2 hj1 hj2
    · show cellAt nw2 i j = _
      rw [k4 i j (fun h => h2 h.1)]
      apply g3 i j _ hj1 hj2
      obtain ⟨r, hr, hr2⟩ := hex
      rcases List.mem_append.1 hr with e | e
      · exact ⟨r, e, hr2⟩
      · exact absurd ⟨r, e, hr2⟩ h2
  · intro i j hno
    show cellAt nw2 i j = _
    rw [k4 i j (fun h => hno ⟨by
      obtain ⟨r, hr, hr2⟩ := h.1
      exact ⟨r, List.mem_append_right _ hr, hr2⟩, h.2⟩)]
    apply g4
    rintro ⟨⟨r, hr, hr2⟩, hj⟩
    exact hno ⟨⟨r, List.mem_append_left _ hr, hr2⟩, hj⟩

theorem block3_last_row_count :
    ([(⟨3, 3, 1⟩ : RowRange)].map (fun r => countRows (blockFn ((3 + 2) / 2) 51)
      ((102 : Int) - 2).toNat (r.end_ - r.start + 1).toNat r.start)).sum = 2 := by decide!

/-- C5 (the code at the input `-n 3 -g 1 -t 2`, first generation): the two tasks cover rows
1..2 and row 3. In the schedule where the second thread executes the reset of line 134
after the first task and before the second, the update phase ends with
`population[w_update] = 2`, while the buffer it has written has 4 alive interior cells. -/
theorem late_reset_loses_count (rnd : Nat → ℚ) (prob : ℚ) :
    ∃ s0 s1, seed rnd prob 1 (initState 3 1) = some s0 ∧
      TeamSchedule (s0.nx - 2) 2
        [TeamStep.reset, TeamStep.task ⟨1, 2, 2⟩, TeamStep.reset, TeamStep.task ⟨3, 3, 1⟩] ∧
      runTeam
        [TeamStep.reset, TeamStep.task ⟨1, 2, 2⟩, TeamStep.reset, TeamStep.task ⟨3, 3, 1⟩]
        s0 = some s1 ∧
      s1.pop_update = 2 ∧ recount s0.nx s0.ny s1.nextWorld = 4 := by
  obtain ⟨h1, h2, h3⟩ := seed_game1 rnd prob 3 1 (by decide)
  have hnew : newCell (blockWorld (3 + 2) (100 + 2) ((3 + 2) / 2) 51) =
      blockFn ((3 + 2) / 2) 51 := by
    funext i j
    show newFn (cellAt (blockWorld (3 + 2) (100 + 2) ((3 + 2) / 2) 51)) i j = _
    rw [h3, newFn_blockFn]
  obtain ⟨s1, r1, r2, r3, r4, _⟩ := @runTeam_late_reset (3 + 2) 102 (by decide)
    [⟨1, 2, 2⟩] [⟨3, 3, 1⟩]
    { initState 3 1 with
      currWorld := blockWorld (3 + 2) (100 + 2) ((3 + 2) / 2) 51, pop_plot := 4 }
    rfl h2 (Dim_zeroWorld (3 + 2) 102 (by decide) (by decide))
    (by intro r hr; rw [List.mem_singleton.1 hr]; decide)
    (by intro r hr; rw [List.mem_singleton.1 hr]; decide)
  dsimp only at r2 r4
  refine ⟨_, s1, h1, ⟨rfl, by decide⟩, r1, ?_, ?_⟩
  · rw [r2, hnew]
    exact block3_last_row_count
  · show recount (3 + 2) (100 + 2) s1.nextWorld = 4
    rw [recount_eq_countFn,
      countFn_congr (3 + 2) (100 + 2) (cellAt s1.nextWorld) (blockFn ((3 + 2) / 2) 51)]
    · exact countFn_blockFn (3 + 2) (100 + 2) ((3 + 2) / 2) 51 (by decide) (by decide)
        (by decide) (by decide)
    · intro i j hij
      unfold Interior at hij
      rw [← hnew]
      apply r4 i j _ hij.2.2.1 hij.2.2.2
      by_cases hi : i ≤ 2
      · exact ⟨⟨1, 2, 2⟩, by simp, hij.1, hi⟩
      · exact ⟨⟨3, 3, 1⟩, by simp, by show (3 : Int) ≤ i; omega, by show i ≤ (3 : Int); omega⟩

/-- C11 (the code at the input `-n 4 -g 1 -t 2`, first generation): the two tasks cover rows
1..2 and rows 3..4. In the schedule where the second thread executes the reset of line 134
after both tasks, the written buffer is the seeded block, but the update phase ends with
`population[w_update] = 0` instead of 4. -/
theorem late_reset_zeroes_block_count (rnd : Nat → ℚ) (prob : ℚ) :
    ∃ s0 s1, seed rnd prob 1 (initState 4 10) = some s0 ∧
      TeamSchedule (s0.nx - 2) 2
        [TeamStep.reset, TeamStep.task ⟨1, 2, 2⟩, TeamStep.task ⟨3, 4, 2⟩, TeamStep.reset] ∧
      runTeam
        [TeamStep.reset, TeamStep.task ⟨1, 2, 2⟩, TeamStep.task ⟨3, 4, 2⟩, TeamStep.reset]
        s0 = some s1 ∧
      s1.nextWorld = s0.currWorld ∧ s1.pop_update = 0 := by
  obtain ⟨h1, h2, h3⟩ := seed_game1 rnd prob 4 10 (by decide)
  have hnew : newCell (blockWorld (4 + 2) (100 + 2) ((4 + 2) / 2) 51) =
      blockFn ((4 + 2) / 2) 51 := by
    funext i j
    show newFn (cellAt (blockWorld (4 + 2) (100 + 2) ((4 + 2) / 2) 51)) i j = _
    rw [h3, newFn_blockFn]
  obtain ⟨s1, r1, r2, r3, r4, r5⟩ := @runTeam_late_reset (4 + 2) 102 (by decide)
    [⟨1, 2, 2⟩, ⟨3, 4, 2⟩] []
    { initState 4 10 with
      currWorld := blockWorld (4 + 2) (100 + 2) ((4 + 2) / 2) 51, pop_plot := 4 }
    rfl h2 (Dim_zeroWorld (4 + 2) 102 (by decide) (by decide))
    (by
      intro r hr
      simp only [List.mem_cons, List.mem_singleton, List.not_mem_nil, or_false] at hr
      rcases hr with e | e <;> rw [e] <;> decide)
    (by intro r hr; simp at hr)
  dsimp only at r2 r4 r5
  refine ⟨_, s1, h1, ⟨rfl, by decide⟩, r1, ?_, ?_⟩
  · show s1.nextWorld = blockWorld (4 + 2) (100 + 2) ((4 + 2) / 2) 51
    apply world_ext r3 h2
    intro i j
    rw [h3]
    by_cases hij : Interior (4 + 2) 102 i j
    · have hij' := hij
      unfold Interior at hij'
      rw [← hnew]
      apply r4 i j _ hij'.2.2.1 hij'.2.2.2
      by_cases hi : i ≤ 2
      · exact ⟨⟨1, 2, 2⟩, by simp, hij'.1, hi⟩
      · exact ⟨⟨3, 4, 2⟩, by simp, by show (3 : Int) ≤ i; omega, by show i ≤ (4 : Int); omega⟩
    · rw [r5 i j]
      · show cellAt (zeroWorld (4 + 2) (100 + 2)) i j = _
        rw [cellAt_zeroWorld]
        unfold Interior at hij
        unfold blockFn
        rw [if_neg]
        have : ((4 : Int) + 2) / 2 = 3 := by decide
        omega
      · rintro ⟨⟨r, hr, hr2⟩, hj⟩
        apply hij
        simp only [List.append_nil, List.mem_cons, List.mem_singleton, List.not_mem_nil,
          or_false] at hr
        unfold Interior
        rcases hr with e | e <;> rw [e] at hr2 <;> simp only at hr2 <;> omega
  · rw [r2]
    rfl

end Life
